import Mathlib

/-!
Verification of the go-librariesio API client core
(request construction, response validation, secret redaction, retry loop).

Go strings are byte sequences, modelled as lists of bytes (`Fin 256`).
Library functions from net/url, net/http, encoding/json and strconv that the
client calls are modelled here byte for byte where the client can observe
their behaviour; simplifications are noted in comments at each definition.
-/

namespace LibrariesIO

abbrev Byte := Fin 256

abbrev Str := List Byte

/-- Conversion from Lean string literals (used for ASCII literals only). -/
def charByte (c : Char) : Byte := ⟨c.toNat % 256, Nat.mod_lt _ (by decide)⟩

/-- Byte string literal helper. -/
def str (s : String) : Str := s.data.map charByte

/-- Decimal digits 0-9. -/
def isDigitByte (b : Byte) : Bool := 48 ≤ b.val ∧ b.val ≤ 57

/-- ASCII letters. -/
def isLetterByte (b : Byte) : Bool := (65 ≤ b.val ∧ b.val ≤ 90) ∨ (97 ≤ b.val ∧ b.val ≤ 122)

def isAlphaNumByte (b : Byte) : Bool := isLetterByte b || isDigitByte b

/-- Upper-case hex digit of a value below 16 (as written by net/url escaping). -/
def hexDig (n : Fin 16) : Byte :=
  if h : n.val < 10 then ⟨48 + n.val, by omega⟩ else ⟨55 + n.val, by omega⟩

/-- Value of a hex digit byte, as accepted by net/url unescaping. -/
def unhex (b : Byte) : Option (Fin 16) :=
  if h : 48 ≤ b.val ∧ b.val ≤ 57 then some ⟨b.val - 48, by omega⟩
  else if h : 65 ≤ b.val ∧ b.val ≤ 70 then some ⟨b.val - 55, by omega⟩
  else if h : 97 ≤ b.val ∧ b.val ≤ 102 then some ⟨b.val - 87, by omega⟩
  else none

def mkByte (x y : Fin 16) : Byte := ⟨16 * x.val + y.val, by omega⟩

/-- Bytes net/url leaves unescaped in a query component: alphanumerics and - _ . ~ -/
def queryUnreserved (b : Byte) : Bool :=
  isAlphaNumByte b || b.val = 45 || b.val = 95 || b.val = 46 || b.val = 126

/-- One byte of net/url QueryEscape: space becomes plus, unreserved bytes stay,
everything else becomes a percent sequence. -/
def escapeByte (b : Byte) : Str :=
  if b.val = 32 then [43]
  else if queryUnreserved b then [b]
  else [37, hexDig ⟨b.val / 16, by omega⟩, hexDig ⟨b.val % 16, by omega⟩]

/-- net/url QueryEscape. -/
def queryEscape (s : Str) : Str := s.flatMap escapeByte

/-- net/url QueryUnescape (query component mode): plus becomes space, a percent
must be followed by two hex digits, anything else passes through. -/
def queryUnescape : Str → Option Str
  | [] => some []
  | b :: rest =>
    if b.val = 37 then
      match rest with
      | h1 :: h2 :: rest2 =>
        match unhex h1, unhex h2 with
        | some x, some y => (queryUnescape rest2).map (fun r => mkByte x y :: r)
        | _, _ => none
      | _ => none
    else if b.val = 43 then (queryUnescape rest).map (fun r => (32 : Byte) :: r)
    else (queryUnescape rest).map (fun r => b :: r)

theorem unhex_hexDig : ∀ n : Fin 16, unhex (hexDig n) = some n := by decide

theorem hexDig_range : ∀ n : Fin 16,
    (48 ≤ (hexDig n).val ∧ (hexDig n).val ≤ 57) ∨
    (65 ≤ (hexDig n).val ∧ (hexDig n).val ≤ 70) := by decide

theorem queryUnreserved_ne (b : Byte) (h : queryUnreserved b = true) :
    b.val ≠ 32 ∧ b.val ≠ 37 ∧ b.val ≠ 43 := by
  simp only [queryUnreserved, isAlphaNumByte, isLetterByte, isDigitByte, Bool.or_eq_true,
    decide_eq_true_eq] at h
  omega

theorem mkByte_div_mod (b : Byte) :
    mkByte ⟨b.val / 16, by omega⟩ ⟨b.val % 16, by omega⟩ = b := by
  simp only [mkByte, Fin.ext_iff]
  omega

/-- Round trip: unescaping an escaped string gives it back. -/
theorem queryUnescape_queryEscape (s : Str) : queryUnescape (queryEscape s) = some s := by
  induction s with
  | nil => rfl
  | cons b rest ih =>
    show queryUnescape (escapeByte b ++ queryEscape rest) = _
    unfold escapeByte
    split
    · rename_i hb
      have hb32 : b = (32 : Byte) := Fin.ext (by simpa using hb)
      subst hb32
      show queryUnescape ((43 : Byte) :: queryEscape rest) = _
      unfold queryUnescape
      rw [if_neg (by decide), if_pos (by decide), ih]
      rfl
    · split
      · rename_i hb hq
        have hne := queryUnreserved_ne b hq
        show queryUnescape (b :: queryEscape rest) = _
        unfold queryUnescape
        rw [if_neg (by omega), if_neg (by omega), ih]
        rfl
      · have h1 := unhex_hexDig ⟨b.val / 16, by omega⟩
        have h2 := unhex_hexDig ⟨b.val % 16, by omega⟩
        show queryUnescape ((37 : Byte) :: _ :: _ :: queryEscape rest) = _
        unfold queryUnescape
        rw [if_pos (by decide)]
        dsimp only
        rw [h1, h2, ih]
        dsimp only [Option.map]
        rw [mkByte_div_mod]

/-- Every byte of escaped output avoids the query grammar separators:
no ampersand 38, no equals 61, no semicolon 59. -/
theorem escapeByte_sep_free (b : Byte) (c : Byte) (hc : c ∈ escapeByte b) :
    c.val ≠ 38 ∧ c.val ≠ 61 ∧ c.val ≠ 59 := by
  unfold escapeByte at hc
  split at hc
  · simp only [List.mem_singleton] at hc
    subst hc; decide
  · split at hc
    · rename_i hq
      simp only [List.mem_singleton] at hc
      subst hc
      simp only [queryUnreserved, isAlphaNumByte, isLetterByte, isDigitByte, Bool.or_eq_true,
        decide_eq_true_eq] at hq
      omega
    · simp only [List.mem_cons, List.mem_singleton, List.not_mem_nil, or_false] at hc
      rcases hc with rfl | rfl | rfl
      · decide
      · have := hexDig_range ⟨b.val / 16, by omega⟩
        omega
      · have := hexDig_range ⟨b.val % 16, by omega⟩
        omega

theorem queryEscape_sep_free (s : Str) (c : Byte) (hc : c ∈ queryEscape s) :
    c.val ≠ 38 ∧ c.val ≠ 61 ∧ c.val ≠ 59 := by
  unfold queryEscape at hc
  simp only [List.mem_flatMap] at hc
  obtain ⟨b, _, hb⟩ := hc
  exact escapeByte_sep_free b c hb

/-- strings.Cut at the first occurrence of a byte: returns the parts before and
after it; when the byte is absent the second part is empty (as the Go callers
use the result). -/
def cutByte (sep : Byte) : Str → Str × Str
  | [] => ([], [])
  | b :: rest =>
    if b = sep then ([], rest)
    else
      let p := cutByte sep rest
      (b :: p.1, p.2)

/-- Splitting on a separator byte, one part per gap; mirrors the repeated
strings.Cut loop of net/url parseQuery. -/
def splitOnByte (sep : Byte) : Str → List Str
  | [] => [[]]
  | b :: rest =>
    if b = sep then [] :: splitOnByte sep rest
    else
      match splitOnByte sep rest with
      | [] => [[b]]
      | p :: ps => (b :: p) :: ps

def intercalateByte (sep : Byte) : List Str → Str
  | [] => []
  | [p] => p
  | p :: ps => p ++ sep :: intercalateByte sep ps

theorem splitOnByte_ne_nil (sep : Byte) (s : Str) : splitOnByte sep s ≠ [] := by
  induction s with
  | nil => simp [splitOnByte]
  | cons b rest ih =>
    unfold splitOnByte
    split
    · simp
    · split
      · simp
      · simp

theorem splitOnByte_intercalateByte (sep : Byte) (parts : List Str)
    (hne : parts ≠ []) (hfree : ∀ p ∈ parts, sep ∉ p) :
    splitOnByte sep (intercalateByte sep parts) = parts := by
  induction parts with
  | nil => exact absurd rfl hne
  | cons p ps ih =>
    have hp : sep ∉ p := hfree p (List.mem_cons_self _ _)
    cases ps with
    | nil =>
      show splitOnByte sep p = [p]
      clear ih hne hfree
      induction p with
      | nil => rfl
      | cons b rest ihp =>
        have hb : b ≠ sep := fun h => hp (h ▸ List.mem_cons_self _ _)
        have hrest : sep ∉ rest := fun h => hp (List.mem_cons_of_mem _ h)
        unfold splitOnByte
        rw [if_neg hb, ihp hrest]
    | cons q qs =>
      have ihq := ih (by simp) (fun x hx => hfree x (List.mem_cons_of_mem _ hx))
      show splitOnByte sep (p ++ sep :: intercalateByte sep (q :: qs)) = p :: q :: qs
      clear ih hne hfree
      induction p with
      | nil =>
        simp only [List.nil_append]
        unfold splitOnByte
        rw [if_pos rfl, ihq]
      | cons b rest ihp =>
        have hb : b ≠ sep := fun h => hp (h ▸ List.mem_cons_self _ _)
        have hrest : sep ∉ rest := fun h => hp (List.mem_cons_of_mem _ h)
        simp only [List.cons_append]
        unfold splitOnByte
        rw [if_neg hb, ihp hrest]

/-- Byte-wise lexicographic order on strings, as used by the key sort inside
net/url Values.Encode. -/
def strLt : Str → Str → Bool
  | [], [] => false
  | [], _ :: _ => true
  | _ :: _, [] => false
  | a :: as, b :: bs =>
    if a.val < b.val then true
    else if b.val < a.val then false
    else strLt as bs

theorem strLt_irrefl (s : Str) : strLt s s = false := by
  induction s with
  | nil => rfl
  | cons a as ih =>
    unfold strLt
    rw [if_neg (by omega), if_neg (by omega), ih]

theorem strLt_asymm (a b : Str) (h : strLt a b = true) : strLt b a = false := by
  induction a generalizing b with
  | nil =>
    cases b with
    | nil => rfl
    | cons y ys => rfl
  | cons x xs ih =>
    cases b with
    | nil => simp [strLt] at h
    | cons y ys =>
      unfold strLt at h ⊢
      by_cases hxy : x.val < y.val
      · rw [if_neg (by omega), if_pos (by omega)]
      · rw [if_neg hxy] at h
        by_cases hyx : y.val < x.val
        · rw [if_pos hyx] at h
          exact absurd h (by simp)
        · rw [if_neg hyx] at h
          rw [if_neg (by omega), if_neg (by omega)]
          exact ih ys h

theorem strLt_total (a b : Str) (h : a ≠ b) : strLt a b = true ∨ strLt b a = true := by
  induction a generalizing b with
  | nil =>
    cases b with
    | nil => exact absurd rfl h
    | cons y ys => left; rfl
  | cons x xs ih =>
    cases b with
    | nil => right; rfl
    | cons y ys =>
      unfold strLt
      by_cases hxy : x.val < y.val
      · left; rw [if_pos hxy]
      · by_cases hyx : y.val < x.val
        · right; rw [if_pos hyx]
        · have hxe : x = y := Fin.ext (by omega)
          subst hxe
          have hne : xs ≠ ys := fun he => h (by rw [he])
          rcases ih ys hne with h1 | h1
          · left
            rw [if_neg (by omega), if_neg (by omega)]
            exact h1
          · right
            rw [if_neg (by omega), if_neg (by omega)]
            exact h1

theorem strLt_trans (a b c : Str) (hab : strLt a b = true) (hbc : strLt b c = true) :
    strLt a c = true := by
  induction a generalizing b c with
  | nil =>
    cases c with
    | nil =>
      cases b with
      | nil => exact hbc
      | cons y ys => simp [strLt] at hbc
    | cons z zs => rfl
  | cons x xs ih =>
    cases b with
    | nil => simp [strLt] at hab
    | cons y ys =>
      cases c with
      | nil => simp [strLt] at hbc
      | cons z zs =>
        unfold strLt at hab hbc ⊢
        by_cases hxy : x.val < y.val
        · by_cases hyz : y.val < z.val
          · rw [if_pos (by omega)]
          · rw [if_neg hyz] at hbc
            by_cases hzy : z.val < y.val
            · rw [if_pos hzy] at hbc
              exact absurd hbc (by simp)
            · rw [if_pos (by omega)]
        · rw [if_neg hxy] at hab
          by_cases hyx : y.val < x.val
          · rw [if_pos hyx] at hab
            exact absurd hab (by simp)
          · rw [if_neg hyx] at hab
            by_cases hyz : y.val < z.val
            · rw [if_pos (by omega)]
            · rw [if_neg hyz] at hbc
              by_cases hzy : z.val < y.val
              · rw [if_pos hzy] at hbc
                exact absurd hbc (by simp)
              · rw [if_neg hzy] at hbc
                rw [if_neg (by omega), if_neg (by omega)]
                exact ih ys zs hab hbc

/-- url.Values: the Go map from key to list of values.  The Go map is
unordered and only observed through Get, lookup and the key-sorted Encode, so
it is represented canonically as an association list strictly sorted by key. -/
abbrev Values := List (Str × List Str)

/-- Appending one value for a key, as parseQuery does with
m[key] = append(m[key], value); keeps the canonical key order. -/
def valuesAdd : Values → Str → Str → Values
  | [], k, v => [(k, [v])]
  | (k', vs) :: rest, k, v =>
    if k = k' then (k', vs ++ [v]) :: rest
    else if strLt k k' then (k, [v]) :: (k', vs) :: rest
    else (k', vs) :: valuesAdd rest k v

/-- Values.Set: replace all values of a key by the single given value. -/
def valuesSet : Values → Str → Str → Values
  | [], k, v => [(k, [v])]
  | (k', vs) :: rest, k, v =>
    if k = k' then (k', [v]) :: rest
    else if strLt k k' then (k, [v]) :: (k', vs) :: rest
    else (k', vs) :: valuesSet rest k v

/-- The value list stored for a key, if any (map membership). -/
def valuesLookup : Values → Str → Option (List Str)
  | [], _ => none
  | (k', vs) :: rest, k => if k = k' then some vs else valuesLookup rest k

/-- Values.Get: first value of the key, or the empty string. -/
def valuesGet (m : Values) (k : Str) : Str :=
  match valuesLookup m k with
  | some (v :: _) => v
  | _ => []

def valuesHas (m : Values) (k : Str) : Bool := (valuesLookup m k).isSome

/-- net/url parseQuery as called from URL.Query (errors ignored): split the
raw query on ampersands, skip empty segments and segments containing a
semicolon, cut each segment at the first equals sign, unescape key and value
(skipping the segment when unescaping fails), and collect into the map. -/
def parseQuerySeg (m : Values) (seg : Str) : Values :=
  if seg.contains (59 : Byte) then m
  else if seg = [] then m
  else
    let kv := cutByte 61 seg
    match queryUnescape kv.1, queryUnescape kv.2 with
    | some k, some v => valuesAdd m k v
    | _, _ => m

def parseQuery (s : Str) : Values :=
  (splitOnByte 38 s).foldl parseQuerySeg []

/-- One key=value pair as written by Values.Encode. -/
def segOf (k v : Str) : Str := queryEscape k ++ (61 : Byte) :: queryEscape v

/-- Values.Encode: keys in sorted order (the canonical representation is
already sorted), each key and value query-escaped, pairs joined by
an ampersand. -/
def encodeValues (m : Values) : Str :=
  intercalateByte 38 (m.flatMap fun kvs => kvs.2.map (segOf kvs.1))

/-- Canonical form of the Values representation: keys strictly sorted, every
key carrying at least one value.  parseQuery only produces such maps. -/
def Canonical (m : Values) : Prop :=
  m.Pairwise (fun a b => strLt a.1 b.1 = true) ∧ ∀ kvs ∈ m, kvs.2 ≠ []

theorem valuesAdd_key_mem (m : Values) (k : Str) (v : Str) :
    ∀ q ∈ valuesAdd m k v, q.1 = k ∨ q.1 ∈ m.map Prod.fst := by
  induction m with
  | nil =>
    intro q hq
    simp only [valuesAdd, List.mem_singleton] at hq
    subst hq; left; rfl
  | cons p rest ih =>
    intro q hq
    obtain ⟨k', vs⟩ := p
    unfold valuesAdd at hq
    split at hq
    · rcases List.mem_cons.mp hq with rfl | hq
      · right; simp
      · right; simp only [List.map_cons, List.mem_cons]; right
        exact List.mem_map_of_mem Prod.fst hq
    · split at hq
      · rcases List.mem_cons.mp hq with rfl | hq
        · left; rfl
        · right; exact List.mem_map_of_mem Prod.fst hq
      · rcases List.mem_cons.mp hq with rfl | hq
        · right; simp
        · rcases ih q hq with h | h
          · left; exact h
          · right; simp only [List.map_cons, List.mem_cons]; right; exact h

theorem valuesAdd_pairwise (m : Values) (k : Str) (v : Str)
    (h : m.Pairwise (fun a b => strLt a.1 b.1 = true)) :
    (valuesAdd m k v).Pairwise (fun a b => strLt a.1 b.1 = true) := by
  induction m with
  | nil => simp [valuesAdd]
  | cons p rest ih =>
    obtain ⟨k', vs⟩ := p
    rw [List.pairwise_cons] at h
    obtain ⟨hhead, htail⟩ := h
    unfold valuesAdd
    split
    · exact List.pairwise_cons.mpr ⟨hhead, htail⟩
    · split
      · rename_i hne hlt
        refine List.pairwise_cons.mpr ⟨?_, List.pairwise_cons.mpr ⟨hhead, htail⟩⟩
        intro q hq
        rcases List.mem_cons.mp hq with rfl | hq
        · exact hlt
        · exact strLt_trans _ _ _ hlt (hhead q hq)
      · rename_i hne hnlt
        have hgt : strLt k' k = true := by
          rcases strLt_total k k' (fun he => hne he) with h1 | h1
          · exact absurd h1 hnlt
          · exact h1
        refine List.pairwise_cons.mpr ⟨?_, ih htail⟩
        intro q hq
        rcases valuesAdd_key_mem rest k v q hq with h1 | h1
        · rw [h1]; exact hgt
        · obtain ⟨p, hp, hp1⟩ := List.mem_map.mp h1
          have := hhead p hp
          rw [hp1] at this
          exact this

theorem valuesAdd_nonempty (m : Values) (k : Str) (v : Str)
    (h : ∀ kvs ∈ m, kvs.2 ≠ []) : ∀ kvs ∈ valuesAdd m k v, kvs.2 ≠ [] := by
  induction m with
  | nil =>
    intro q hq
    simp only [valuesAdd, List.mem_singleton] at hq
    subst hq; simp
  | cons p rest ih =>
    intro q hq
    obtain ⟨k', vs⟩ := p
    unfold valuesAdd at hq
    split at hq
    · rcases List.mem_cons.mp hq with rfl | hq
      · simp
      · exact h q (List.mem_cons_of_mem _ hq)
    · split at hq
      · rcases List.mem_cons.mp hq with rfl | hq
        · simp
        · exact h q hq
      · rcases List.mem_cons.mp hq with rfl | hq
        · exact h _ (List.mem_cons_self _ _)
        · exact ih (fun x hx => h x (List.mem_cons_of_mem _ hx)) q hq

theorem canonical_valuesAdd (m : Values) (k : Str) (v : Str) (h : Canonical m) :
    Canonical (valuesAdd m k v) :=
  ⟨valuesAdd_pairwise m k v h.1, valuesAdd_nonempty m k v h.2⟩

theorem canonical_parseQuerySeg (m : Values) (seg : Str) (h : Canonical m) :
    Canonical (parseQuerySeg m seg) := by
  unfold parseQuerySeg
  split
  · exact h
  · split
    · exact h
    · show Canonical
        (match queryUnescape (cutByte 61 seg).1, queryUnescape (cutByte 61 seg).2 with
          | some k, some v => valuesAdd m k v
          | _, _ => m)
      cases queryUnescape (cutByte 61 seg).1 with
      | none =>
        cases queryUnescape (cutByte 61 seg).2 with
        | none => exact h
        | some v => exact h
      | some k =>
        cases queryUnescape (cutByte 61 seg).2 with
        | none => exact h
        | some v => exact canonical_valuesAdd _ _ _ h

theorem canonical_foldl_seg (segs : List Str) (m : Values) (h : Canonical m) :
    Canonical (segs.foldl parseQuerySeg m) := by
  induction segs generalizing m with
  | nil => exact h
  | cons s rest ih => exact ih _ (canonical_parseQuerySeg m s h)

theorem canonical_parseQuery (s : Str) : Canonical (parseQuery s) :=
  canonical_foldl_seg _ [] ⟨List.Pairwise.nil, by simp⟩

theorem valuesSet_key_mem (m : Values) (k : Str) (v : Str) :
    ∀ q ∈ valuesSet m k v, q.1 = k ∨ q.1 ∈ m.map Prod.fst := by
  induction m with
  | nil =>
    intro q hq
    simp only [valuesSet, List.mem_singleton] at hq
    subst hq; left; rfl
  | cons p rest ih =>
    intro q hq
    obtain ⟨k', vs⟩ := p
    unfold valuesSet at hq
    split at hq
    · rcases List.mem_cons.mp hq with rfl | hq
      · right; simp
      · right; simp only [List.map_cons, List.mem_cons]; right
        exact List.mem_map_of_mem Prod.fst hq
    · split at hq
      · rcases List.mem_cons.mp hq with rfl | hq
        · left; rfl
        · right; exact List.mem_map_of_mem Prod.fst hq
      · rcases List.mem_cons.mp hq with rfl | hq
        · right; simp
        · rcases ih q hq with h | h
          · left; exact h
          · right; simp only [List.map_cons, List.mem_cons]; right; exact h

theorem valuesSet_pairwise (m : Values) (k : Str) (v : Str)
    (h : m.Pairwise (fun a b => strLt a.1 b.1 = true)) :
    (valuesSet m k v).Pairwise (fun a b => strLt a.1 b.1 = true) := by
  induction m with
  | nil => simp [valuesSet]
  | cons p rest ih =>
    obtain ⟨k', vs⟩ := p
    rw [List.pairwise_cons] at h
    obtain ⟨hhead, htail⟩ := h
    unfold valuesSet
    split
    · exact List.pairwise_cons.mpr ⟨hhead, htail⟩
    · split
      · rename_i hne hlt
        refine List.pairwise_cons.mpr ⟨?_, List.pairwise_cons.mpr ⟨hhead, htail⟩⟩
        intro q hq
        rcases List.mem_cons.mp hq with rfl | hq
        · exact hlt
        · exact strLt_trans _ _ _ hlt (hhead q hq)
      · rename_i hne hnlt
        have hgt : strLt k' k = true := by
          rcases strLt_total k k' (fun he => hne he) with h1 | h1
          · exact absurd h1 hnlt
          · exact h1
        refine List.pairwise_cons.mpr ⟨?_, ih htail⟩
        intro q hq
        rcases valuesSet_key_mem rest k v q hq with h1 | h1
        · rw [h1]; exact hgt
        · obtain ⟨p, hp, hp1⟩ := List.mem_map.mp h1
          have := hhead p hp
          rw [hp1] at this
          exact this

theorem valuesSet_nonempty (m : Values) (k : Str) (v : Str)
    (h : ∀ kvs ∈ m, kvs.2 ≠ []) : ∀ kvs ∈ valuesSet m k v, kvs.2 ≠ [] := by
  induction m with
  | nil =>
    intro q hq
    simp only [valuesSet, List.mem_singleton] at hq
    subst hq; simp
  | cons p rest ih =>
    intro q hq
    obtain ⟨k', vs⟩ := p
    unfold valuesSet at hq
    split at hq
    · rcases List.mem_cons.mp hq with rfl | hq
      · simp
      · exact h q (List.mem_cons_of_mem _ hq)
    · split at hq
      · rcases List.mem_cons.mp hq with rfl | hq
        · simp
        · exact h q hq
      · rcases List.mem_cons.mp hq with rfl | hq
        · exact h _ (List.mem_cons_self _ _)
        · exact ih (fun x hx => h x (List.mem_cons_of_mem _ hx)) q hq

theorem canonical_valuesSet (m : Values) (k : Str) (v : Str) (h : Canonical m) :
    Canonical (valuesSet m k v) :=
  ⟨valuesSet_pairwise m k v h.1, valuesSet_nonempty m k v h.2⟩

theorem valuesLookup_set_self (m : Values) (k : Str) (v : Str) :
    valuesLookup (valuesSet m k v) k = some [v] := by
  induction m with
  | nil => simp [valuesSet, valuesLookup]
  | cons p rest ih =>
    obtain ⟨k', vs⟩ := p
    unfold valuesSet
    split
    · rename_i he
      unfold valuesLookup
      rw [if_pos he]
    · split
      · unfold valuesLookup
        rw [if_pos rfl]
      · rename_i hne hnlt
        unfold valuesLookup
        rw [if_neg hne]
        exact ih

theorem valuesLookup_set_other (m : Values) (k : Str) (v : Str) (k'' : Str) (h : k'' ≠ k) :
    valuesLookup (valuesSet m k v) k'' = valuesLookup m k'' := by
  induction m with
  | nil => simp [valuesSet, valuesLookup, if_neg h]
  | cons p rest ih =>
    obtain ⟨k', vs⟩ := p
    unfold valuesSet
    split
    · rename_i he
      subst he
      unfold valuesLookup
      rw [if_neg (fun hc => h hc), if_neg (fun hc => h hc)]
    · split
      · unfold valuesLookup
        rw [if_neg h]
        rfl
      · unfold valuesLookup
        split
        · rfl
        · exact ih

theorem valuesSet_cons (k' : Str) (vs : List Str) (rest : Values) (k v : Str) :
    valuesSet ((k', vs) :: rest) k v =
      if k = k' then (k', [v]) :: rest
      else if strLt k k' then (k, [v]) :: (k', vs) :: rest
      else (k', vs) :: valuesSet rest k v := rfl

theorem valuesSet_set (m : Values) (k : Str) (v : Str) :
    valuesSet (valuesSet m k v) k v = valuesSet m k v := by
  induction m with
  | nil => simp [valuesSet]
  | cons p rest ih =>
    obtain ⟨k', vs⟩ := p
    by_cases he : k = k'
    · rw [valuesSet_cons, if_pos he, valuesSet_cons, if_pos he]
    · by_cases hlt : strLt k k' = true
      · rw [valuesSet_cons, if_neg he, if_pos hlt, valuesSet_cons, if_pos rfl]
      · rw [valuesSet_cons, if_neg he, if_neg hlt, valuesSet_cons, if_neg he, if_neg hlt, ih]

theorem valuesAdd_cons (k' : Str) (vs : List Str) (rest : Values) (k v : Str) :
    valuesAdd ((k', vs) :: rest) k v =
      if k = k' then (k', vs ++ [v]) :: rest
      else if strLt k k' then (k, [v]) :: (k', vs) :: rest
      else (k', vs) :: valuesAdd rest k v := rfl

theorem cutByte_append (sep : Byte) (a b : Str) (ha : sep ∉ a) :
    cutByte sep (a ++ sep :: b) = (a, b) := by
  induction a with
  | nil =>
    simp only [List.nil_append]
    unfold cutByte
    rw [if_pos rfl]
  | cons x xs ih =>
    have hx : x ≠ sep := fun h => ha (h ▸ List.mem_cons_self _ _)
    have hxs : sep ∉ xs := fun h => ha (List.mem_cons_of_mem _ h)
    simp only [List.cons_append]
    unfold cutByte
    rw [if_neg hx, ih hxs]

theorem not_mem_segOf_38 (k v : Str) : (38 : Byte) ∉ segOf k v := by
  intro h
  unfold segOf at h
  rcases List.mem_append.mp h with h | h
  · exact absurd rfl (queryEscape_sep_free k _ h).1
  · rcases List.mem_cons.mp h with h | h
    · exact absurd (congrArg Fin.val h) (by decide)
    · exact absurd rfl (queryEscape_sep_free v _ h).1

theorem not_mem_segOf_59 (k v : Str) : (59 : Byte) ∉ segOf k v := by
  intro h
  unfold segOf at h
  rcases List.mem_append.mp h with h | h
  · exact absurd rfl (queryEscape_sep_free k _ h).2.2
  · rcases List.mem_cons.mp h with h | h
    · exact absurd (congrArg Fin.val h) (by decide)
    · exact absurd rfl (queryEscape_sep_free v _ h).2.2

/-- Parsing one encoded key=value segment adds exactly that pair. -/
theorem parseQuerySeg_segOf (m : Values) (k v : Str) :
    parseQuerySeg m (segOf k v) = valuesAdd m k v := by
  unfold parseQuerySeg
  rw [if_neg, if_neg]
  · have hcut : cutByte 61 (segOf k v) = (queryEscape k, queryEscape v) := by
      apply cutByte_append
      intro h
      exact absurd rfl (queryEscape_sep_free k _ h).2.1
    show (match queryUnescape (cutByte 61 (segOf k v)).1,
            queryUnescape (cutByte 61 (segOf k v)).2 with
          | some k1, some v1 => valuesAdd m k1 v1
          | _, _ => m) = _
    rw [hcut]
    show (match queryUnescape (queryEscape k), queryUnescape (queryEscape v) with
          | some k1, some v1 => valuesAdd m k1 v1
          | _, _ => m) = _
    rw [queryUnescape_queryEscape, queryUnescape_queryEscape]
  · intro h
    have h38 : (61 : Byte) ∈ segOf k v := by
      unfold segOf
      exact List.mem_append.mpr (Or.inr (List.mem_cons_self _ _))
    rw [h] at h38
    simp at h38
  · intro h
    have := List.elem_iff.mp h
    exact not_mem_segOf_59 k v this

theorem valuesAdd_append_new (m : Values) (k v : Str)
    (h : ∀ p ∈ m, strLt p.1 k = true) :
    valuesAdd m k v = m ++ [(k, [v])] := by
  induction m with
  | nil => rfl
  | cons p rest ih =>
    obtain ⟨k', vs'⟩ := p
    have hlt : strLt k' k = true := h _ (List.mem_cons_self _ _)
    have hne : k ≠ k' := by
      intro he
      subst he
      rw [strLt_irrefl] at hlt
      exact absurd hlt (by simp)
    have hnlt : ¬ strLt k k' = true := by
      rw [strLt_asymm _ _ hlt]
      simp
    rw [valuesAdd_cons, if_neg hne, if_neg hnlt,
      ih (fun p hp => h p (List.mem_cons_of_mem _ hp))]
    rfl

theorem valuesAdd_append_last (m : Values) (k : Str) (ws : List Str) (v : Str)
    (h : ∀ p ∈ m, strLt p.1 k = true) :
    valuesAdd (m ++ [(k, ws)]) k v = m ++ [(k, ws ++ [v])] := by
  induction m with
  | nil =>
    simp only [List.nil_append]
    rw [valuesAdd_cons, if_pos rfl]
  | cons p rest ih =>
    obtain ⟨k', vs'⟩ := p
    have hlt : strLt k' k = true := h _ (List.mem_cons_self _ _)
    have hne : k ≠ k' := by
      intro he
      subst he
      rw [strLt_irrefl] at hlt
      exact absurd hlt (by simp)
    have hnlt : ¬ strLt k k' = true := by
      rw [strLt_asymm _ _ hlt]
      simp
    simp only [List.cons_append]
    rw [valuesAdd_cons, if_neg hne, if_neg hnlt,
      ih (fun p hp => h p (List.mem_cons_of_mem _ hp))]

/-- Folding the remaining values of one key appends them to that key. -/
theorem foldl_seg_group (vs : List Str) (acc : Values) (k : Str) (ws : List Str)
    (h : ∀ p ∈ acc, strLt p.1 k = true) :
    List.foldl parseQuerySeg (acc ++ [(k, ws)]) (vs.map (segOf k)) =
      acc ++ [(k, ws ++ vs)] := by
  induction vs generalizing ws with
  | nil => simp
  | cons v vs' ih =>
    simp only [List.map_cons, List.foldl_cons]
    rw [parseQuerySeg_segOf, valuesAdd_append_last _ _ _ _ h, ih (ws ++ [v])]
    simp

/-- Folding all encoded segments of a canonical map rebuilds the map. -/
theorem foldl_seg_groups (m : Values) (acc : Values)
    (hpw : m.Pairwise (fun a b => strLt a.1 b.1 = true))
    (hvs : ∀ kvs ∈ m, kvs.2 ≠ [])
    (hlt : ∀ p ∈ acc, ∀ q ∈ m, strLt p.1 q.1 = true) :
    List.foldl parseQuerySeg acc (m.flatMap fun kvs => kvs.2.map (segOf kvs.1)) =
      acc ++ m := by
  induction m generalizing acc with
  | nil => simp
  | cons p rest ih =>
    obtain ⟨k, vs⟩ := p
    have hvsne : vs ≠ [] := hvs _ (List.mem_cons_self _ _)
    obtain ⟨v0, vs', rfl⟩ := List.exists_cons_of_ne_nil hvsne
    rw [List.pairwise_cons] at hpw
    have hacc_k : ∀ p ∈ acc, strLt p.1 k = true := fun p hp =>
      hlt p hp _ (List.mem_cons_self _ _)
    simp only [List.flatMap_cons, List.foldl_append, List.map_cons, List.foldl_cons]
    rw [parseQuerySeg_segOf, valuesAdd_append_new _ _ _ hacc_k, foldl_seg_group _ _ _ _ hacc_k]
    rw [ih (acc ++ [(k, [v0] ++ vs')]) hpw.2
      (fun kvs hk => hvs kvs (List.mem_cons_of_mem _ hk)) ?_]
    · simp
    · intro p hp q hq
      rcases List.mem_append.mp hp with hp | hp
      · exact hlt p hp q (List.mem_cons_of_mem _ hq)
      · simp only [List.mem_singleton] at hp
        subst hp
        exact hpw.1 q hq

/-- Round trip at the map level: parsing an encoded canonical map gives the
map back.  This lets redaction and credential injection be analyzed at the
level of query parameter maps. -/
theorem parseQuery_encodeValues (m : Values) (h : Canonical m) :
    parseQuery (encodeValues m) = m := by
  cases m with
  | nil => rfl
  | cons p rest =>
    obtain ⟨k, vs⟩ := p
    have hvsne : vs ≠ [] := h.2 _ (List.mem_cons_self _ _)
    obtain ⟨v0, vs', rfl⟩ := List.exists_cons_of_ne_nil hvsne
    unfold parseQuery encodeValues
    rw [splitOnByte_intercalateByte]
    · exact foldl_seg_groups _ [] h.1 h.2 (by simp)
    · simp
    · intro p hp
      simp only [List.mem_flatMap, List.mem_map] at hp
      obtain ⟨kvs, hkvs, v, hv, rfl⟩ := hp
      exact not_mem_segOf_38 _ _

/-- Model of net/url URL for the fields this client touches.  Path and
fragment are kept in their escaped (raw) form, which is the form every
operation of the client reads and writes; Userinfo, port splitting, OmitHost
and ForceQuery are not modelled (the client never produces them and they do
not change the observable behaviour of the modelled calls). -/
structure GoURL where
  scheme : Str
  opq : Str
  host : Str
  path : Str
  rawQuery : Str
  fragment : Str
deriving DecidableEq

def asciiLower (b : Byte) : Byte :=
  if h : 65 ≤ b.val ∧ b.val ≤ 90 then ⟨b.val + 32, by omega⟩ else b

def asciiLowerStr (s : Str) : Str := s.map asciiLower

/-- net/url getScheme: a scheme is letters then letters, digits, plus, minus
or dot, terminated by a colon; a leading colon is an error; anything else
means the input has no scheme. -/
def getSchemeAux (orig : Str) : Str → Nat → Except Unit (Str × Str)
  | [], _ => .ok ([], orig)
  | c :: rest, i =>
    if isLetterByte c then getSchemeAux orig rest (i + 1)
    else if isDigitByte c || c.val = 43 || c.val = 45 || c.val = 46 then
      if i = 0 then .ok ([], orig) else getSchemeAux orig rest (i + 1)
    else if c.val = 58 then
      if i = 0 then .error () else .ok (orig.take i, rest)
    else .ok ([], orig)

def getScheme (s : Str) : Except Unit (Str × Str) := getSchemeAux s s 0

/-- Split at the first occurrence of a byte, keeping the byte with the
suffix (used for the authority/path split). -/
def spanUntilByte (sep : Byte) : Str → Str × Str
  | [] => ([], [])
  | b :: rest =>
    if b = sep then ([], b :: rest)
    else
      let p := spanUntilByte sep rest
      (b :: p.1, p.2)

/-- The part after the last occurrence of a byte (the whole string when the
byte is absent); drops the userinfo from an authority like Go does. -/
def afterLastByte (sep : Byte) (s : Str) : Str :=
  (s.reverse.takeWhile fun b => b != sep).reverse

/-- Validity of percent escapes, as checked by net/url setPath and
setFragment: every percent byte must be followed by two hex digits. -/
def validEscapeStr : Str → Bool
  | [] => true
  | b :: rest =>
    if b.val = 37 then
      match rest with
      | h1 :: h2 :: r => (unhex h1).isSome && (unhex h2).isSome && validEscapeStr r
      | _ => false
    else validEscapeStr rest

def mkURLPath (scheme host path rawQuery : Str) : Option GoURL :=
  if validEscapeStr path then
    some { scheme := scheme, opq := [], host := host, path := path,
           rawQuery := rawQuery, fragment := [] }
  else none

/-- net/url parse (viaRequest false) on the part before the fragment:
reject control bytes, strip the scheme, cut the raw query at the first
question mark (ForceQuery is not tracked: a trailing question mark yields the
same empty RawQuery), then the opaque, authority and path cases.  Host
validation beyond the userinfo split is not modelled. -/
def parseNoFrag (s : Str) : Option GoURL :=
  if s.any (fun b => b.val < 32 || b.val = 127) then none
  else
    match getScheme s with
    | .error _ => none
    | .ok schemeRest =>
      let scheme := asciiLowerStr schemeRest.1
      let cut := cutByte 63 schemeRest.2
      let rest := cut.1
      let rawQuery := cut.2
      if rest.head? ≠ some (47 : Byte) then
        if scheme ≠ [] then
          some { scheme := scheme, opq := rest, host := [], path := [],
                 rawQuery := rawQuery, fragment := [] }
        else if ((cutByte 47 rest).1).contains (58 : Byte) then none
        else mkURLPath scheme [] rest rawQuery
      else
        if rest.take 2 = [(47 : Byte), 47] ∧ (scheme ≠ [] ∨ rest.take 3 ≠ [(47 : Byte), 47, 47]) then
          let sp := spanUntilByte 47 (rest.drop 2)
          mkURLPath scheme (afterLastByte 64 sp.1) sp.2 rawQuery
        else mkURLPath scheme [] rest rawQuery

/-- net/url Parse: cut the fragment at the first hash, parse the rest, then
validate and store the fragment. -/
def urlParse (rawURL : Str) : Option GoURL :=
  let cut := cutByte 35 rawURL
  match parseNoFrag cut.1 with
  | none => none
  | some url =>
    if cut.2 = [] then some url
    else if validEscapeStr cut.2 then some { url with fragment := cut.2 } else none

/-- base[:LastIndex(base, slash)+1], the directory part used by the RFC 3986
merge when the reference has a relative path. -/
def dropAfterLast47 (base : Str) : Str :=
  (base.reverse.dropWhile fun b => b != (47 : Byte)).reverse

def segStep (acc : List Str) (seg : Str) : List Str :=
  if seg = [(46 : Byte)] then acc
  else if seg = [(46 : Byte), 46] then acc.dropLast
  else acc ++ [seg]

/-- net/url resolvePath: merge the reference path with the base path and
remove dot segments, preserving a trailing slash.  The output always begins
with a slash. -/
def resolvePath (base ref : Str) : Str :=
  let full :=
    if ref = [] then base
    else if ref.head? ≠ some (47 : Byte) then dropAfterLast47 base ++ ref
    else ref
  if full = [] then []
  else
    let segs0 := splitOnByte 47 full
    let segs := if segs0.head? = some [] then segs0.drop 1 else segs0
    let stack := segs.foldl segStep []
    let trail :=
      match segs.getLast? with
      | some s => decide (s = [(46 : Byte)]) || decide (s = [(46 : Byte), 46])
      | none => false
    (47 : Byte) :: (intercalateByte 47 stack ++
      if trail && !stack.isEmpty then [(47 : Byte)] else [])

/-- net/url ResolveReference. -/
def resolveReference (u ref : GoURL) : GoURL :=
  let url1 := if ref.scheme = [] then { ref with scheme := u.scheme } else ref
  if ref.scheme ≠ [] ∨ ref.host ≠ [] then
    { url1 with path := resolvePath ref.path [] }
  else if ref.opq ≠ [] then
    { url1 with host := [], path := [] }
  else
    let url2 :=
      if ref.path = [] ∧ ref.rawQuery = [] then
        let u2 := { url1 with rawQuery := u.rawQuery }
        if ref.fragment = [] then { u2 with fragment := u.fragment } else u2
      else url1
    { url2 with host := u.host, path := resolvePath u.path ref.path }

/-- net/url URL.String for the modelled fields. -/
def urlString (u : GoURL) : Str :=
  let buf0 := if u.scheme ≠ [] then u.scheme ++ [(58 : Byte)] else []
  let buf1 :=
    if u.opq ≠ [] then buf0 ++ u.opq
    else
      let b1 :=
        if u.scheme ≠ [] ∨ u.host ≠ [] then
          (if u.host ≠ [] ∨ u.path ≠ [] then buf0 ++ [(47 : Byte), 47] else buf0) ++ u.host
        else buf0
      let b2 :=
        if u.path ≠ [] ∧ u.path.head? ≠ some (47 : Byte) ∧ u.host ≠ [] then
          b1 ++ [(47 : Byte)]
        else b1
      let b3 :=
        if b2 = [] ∧ ((cutByte 47 u.path).1).contains (58 : Byte) then
          b2 ++ [(46 : Byte), 47]
        else b2
      b3 ++ u.path
  let buf2 := if u.rawQuery ≠ [] then buf1 ++ (63 : Byte) :: u.rawQuery else buf1
  if u.fragment ≠ [] then buf2 ++ (35 : Byte) :: u.fragment else buf2

/-- redactAPIKey overwrites the secret api_key query param.  The Go function
mutates the given *url.URL in place (it assigns RawQuery on it) and returns
that same pointer, so the returned value here is also the post-state of the
argument object. -/
def redactAPIKey (url : GoURL) : GoURL :=
  { url with
    rawQuery := encodeValues (valuesSet (parseQuery url.rawQuery) (str "api_key") (str "REDACTED")) }

/-- JSON values as they travel through encoding/json in this client.
jnum covers integral numbers (the client never sends fractional payloads in
the modelled claims; floating point is outside the embedding), jnumRaw keeps
the token of a non-integral number met while parsing, and junsupported
stands for Go values json.Marshal rejects (map keys that are not strings,
channels, cycles). -/
inductive JVal where
  | jnull
  | jbool (b : Bool)
  | jnum (n : Int)
  | jnumRaw (tok : Str)
  | jstr (s : Str)
  | jarr (xs : List JVal)
  | jobj (fields : List (Str × JVal))
  | junsupported

def hexLower (n : Fin 16) : Byte :=
  if h : n.val < 10 then ⟨48 + n.val, by omega⟩ else ⟨87 + n.val, by omega⟩

/-- One byte of the encoding/json string encoder with the default HTML
escaping of Encoder: quote, backslash, angle brackets and ampersand and
control bytes are escaped, newline, carriage return and tab get short
escapes, remaining control bytes become lowercase unicode escapes.  Bytes at
and above 0x80 (pieces of multibyte runes) pass through unchanged. -/
def jsonQuoteByte (b : Byte) : Str :=
  if 32 ≤ b.val ∧ b.val ≠ 34 ∧ b.val ≠ 92 ∧ b.val ≠ 60 ∧ b.val ≠ 62 ∧ b.val ≠ 38 then [b]
  else if b.val = 34 then [92, 34]
  else if b.val = 92 then [92, 92]
  else if b.val = 10 then [92, 110]
  else if b.val = 13 then [92, 114]
  else if b.val = 9 then [92, 116]
  else [92, 117, 48, 48, hexLower ⟨b.val / 16, by omega⟩, hexLower ⟨b.val % 16, by omega⟩]

def jsonQuote (s : Str) : Str := (34 : Byte) :: s.flatMap jsonQuoteByte ++ [34]

/-- Decimal rendering of an integer, as written by %d and json number
encoding. -/
def intToStr (i : Int) : Str :=
  if i < 0 then (45 : Byte) :: str (Nat.repr i.natAbs) else str (Nat.repr i.toNat)

mutual

/-- encoding/json Marshal for the modelled value type: compact output, keys
and strings quoted with HTML escaping on (as used by Encoder.Encode), none
for unsupported values. -/
def jsonEnc : JVal → Option Str
  | .jnull => some (str "null")
  | .jbool true => some (str "true")
  | .jbool false => some (str "false")
  | .jnum n => some (intToStr n)
  | .jnumRaw _ => none
  | .jstr s => some (jsonQuote s)
  | .jarr xs =>
    (jsonEncList xs).map fun parts => (91 : Byte) :: intercalateByte 44 parts ++ [93]
  | .jobj fs =>
    (jsonEncFields fs).map fun parts => (123 : Byte) :: intercalateByte 44 parts ++ [125]
  | .junsupported => none

def jsonEncList : List JVal → Option (List Str)
  | [] => some []
  | x :: xs =>
    match jsonEnc x, jsonEncList xs with
    | some s, some rest => some (s :: rest)
    | _, _ => none

def jsonEncFields : List (Str × JVal) → Option (List Str)
  | [] => some []
  | kv :: fs =>
    match jsonEnc kv.2, jsonEncFields fs with
    | some s, some rest => some ((jsonQuote kv.1 ++ (58 : Byte) :: s) :: rest)
    | _, _ => none

end

def skipWs : Str → Str
  | [] => []
  | b :: rest =>
    if b.val = 32 || b.val = 9 || b.val = 10 || b.val = 13 then skipWs rest else b :: rest

/-- UTF-8 bytes of a code point below 0x10000, for unicode escapes in JSON
strings (surrogate pairing is not modelled; the client never meets it). -/
def utf8Enc (n : Nat) : Str :=
  if h : n < 128 then [⟨n, by omega⟩]
  else if h2 : n < 2048 then [⟨192 + n / 64, by omega⟩, ⟨128 + n % 64, by omega⟩]
  else [⟨(224 + n / 4096) % 256, Nat.mod_lt _ (by omega)⟩,
        ⟨128 + (n / 64) % 64, by omega⟩, ⟨128 + n % 64, by omega⟩]

/-- JSON string body after the opening quote: content bytes until the closing
quote, with backslash escapes; raw control bytes are rejected as in Go. -/
def parseJStr : Str → Option (Str × Str)
  | [] => none
  | b :: rest =>
    if b.val = 34 then some ([], rest)
    else if b.val = 92 then
      match rest with
      | e :: rest2 =>
        if e.val = 34 then (parseJStr rest2).map fun p => ((34 : Byte) :: p.1, p.2)
        else if e.val = 92 then (parseJStr rest2).map fun p => ((92 : Byte) :: p.1, p.2)
        else if e.val = 47 then (parseJStr rest2).map fun p => ((47 : Byte) :: p.1, p.2)
        else if e.val = 98 then (parseJStr rest2).map fun p => ((8 : Byte) :: p.1, p.2)
        else if e.val = 102 then (parseJStr rest2).map fun p => ((12 : Byte) :: p.1, p.2)
        else if e.val = 110 then (parseJStr rest2).map fun p => ((10 : Byte) :: p.1, p.2)
        else if e.val = 114 then (parseJStr rest2).map fun p => ((13 : Byte) :: p.1, p.2)
        else if e.val = 116 then (parseJStr rest2).map fun p => ((9 : Byte) :: p.1, p.2)
        else if e.val = 117 then
          match rest2 with
          | h1 :: h2 :: h3 :: h4 :: rest3 =>
            match unhex h1, unhex h2, unhex h3, unhex h4 with
            | some a, some b1, some c, some d =>
              (parseJStr rest3).map fun p =>
                (utf8Enc (4096 * a.val + 256 * b1.val + 16 * c.val + d.val) ++ p.1, p.2)
            | _, _, _, _ => none
          | _ => none
        else none
      | [] => none
    else if b.val < 32 then none
    else (parseJStr rest).map fun p => (b :: p.1, p.2)

def digitsToNat (ds : Str) : Nat := ds.foldl (fun a d => 10 * a + (d.val - 48)) 0

/-- JSON number token: optional minus, an integer part without leading
zeros, optional fraction and exponent.  Integral tokens become jnum,
fractional or exponent tokens keep their text as jnumRaw. -/
def parseJNum (s : Str) : Option (JVal × Str) :=
  let signed := match s with
    | b :: r => if b.val = 45 then (true, r) else (false, s)
    | [] => (false, [])
  match signed.2 with
  | [] => none
  | d :: r =>
    if ¬ isDigitByte d then none
    else
      let ip : Str × Str :=
        if d.val = 48 then ([d], r) else List.span (fun b => isDigitByte b) signed.2
      let fp : Option (Str × Str) :=
        match ip.2 with
        | dot :: r2 =>
          if dot.val = 46 then
            let sp := List.span (fun b => isDigitByte b) r2
            if sp.1 = [] then none else some ((46 : Byte) :: sp.1, sp.2)
          else some ([], ip.2)
        | [] => some ([], [])
      match fp with
      | none => none
      | some fpr =>
        let ep : Option (Str × Str) :=
          match fpr.2 with
          | e :: r3 =>
            if e.val = 101 || e.val = 69 then
              let signAndRest : Str × Str :=
                match r3 with
                | sgn :: r4 => if sgn.val = 43 || sgn.val = 45 then ([sgn], r4) else ([], r3)
                | [] => ([], [])
              let sp := List.span (fun b => isDigitByte b) signAndRest.2
              if sp.1 = [] then none else some (e :: signAndRest.1 ++ sp.1, sp.2)
            else some ([], fpr.2)
          | [] => some ([], [])
        match ep with
        | none => none
        | some epr =>
          let tok := (if signed.1 then [(45 : Byte)] else []) ++ ip.1 ++ fpr.1 ++ epr.1
          if fpr.1 = [] ∧ epr.1 = [] then
            let v : Int := Int.ofNat (digitsToNat ip.1)
            some (.jnum (if signed.1 then -v else v), epr.2)
          else some (.jnumRaw tok, epr.2)

mutual

/-- Fueled JSON value parser (the fuel only bounds nesting; callers pass
more fuel than any input can consume). -/
def parseJ : Nat → Str → Option (JVal × Str)
  | 0, _ => none
  | fuel + 1, s =>
    match skipWs s with
    | [] => none
    | b :: rest =>
      if b.val = 110 then
        if rest.take 3 = str "ull" then some (.jnull, rest.drop 3) else none
      else if b.val = 116 then
        if rest.take 3 = str "rue" then some (.jbool true, rest.drop 3) else none
      else if b.val = 102 then
        if rest.take 4 = str "alse" then some (.jbool false, rest.drop 4) else none
      else if b.val = 34 then (parseJStr rest).map fun p => (.jstr p.1, p.2)
      else if b.val = 91 then
        match skipWs rest with
        | c :: r2 => if c.val = 93 then some (.jarr [], r2)
                     else (parseJElems fuel rest).map fun p => (.jarr p.1, p.2)
        | [] => none
      else if b.val = 123 then
        match skipWs rest with
        | c :: r2 => if c.val = 125 then some (.jobj [], r2)
                     else (parseJFields fuel rest).map fun p => (.jobj p.1, p.2)
        | [] => none
      else if isDigitByte b || b.val = 45 then parseJNum (b :: rest)
      else none

def parseJElems : Nat → Str → Option (List JVal × Str)
  | 0, _ => none
  | fuel + 1, s =>
    match parseJ fuel s with
    | none => none
    | some (v, r) =>
      match skipWs r with
      | c :: r2 =>
        if c.val = 44 then (parseJElems fuel r2).map fun p => (v :: p.1, p.2)
        else if c.val = 93 then some ([v], r2)
        else none
      | [] => none

def parseJFields : Nat → Str → Option (List (Str × JVal) × Str)
  | 0, _ => none
  | fuel + 1, s =>
    match skipWs s with
    | c :: r =>
      if c.val = 34 then
        match parseJStr r with
        | some (k, r2) =>
          match skipWs r2 with
          | c2 :: r3 =>
            if c2.val = 58 then
              match parseJ fuel r3 with
              | some (v, r4) =>
                match skipWs r4 with
                | c3 :: r5 =>
                  if c3.val = 44 then
                    (parseJFields fuel r5).map fun p => ((k, v) :: p.1, p.2)
                  else if c3.val = 125 then some ([(k, v)], r5)
                  else none
                | [] => none
              | none => none
            else none
          | [] => none
        | none => none
      else none
    | [] => none

end

/-- json.Unmarshal and json.Valid both accept exactly one JSON value plus
trailing whitespace; the fuel is ample for any input of that length. -/
def jsonParseWhole (s : Str) : Option JVal :=
  match parseJ (2 * s.length + 2) s with
  | some (v, r) => if skipWs r = [] then some v else none
  | none => none

/-- Case-insensitive ASCII equality, the fallback rule json.Unmarshal uses
to match object keys against the tagged field name. -/
def eqFoldASCII (a b : Str) : Bool := asciiLowerStr a == asciiLowerStr b

/-- The message json.Unmarshal(data, errResp) leaves in the field tagged
error: the whole input must be one valid JSON object, and the last
string-valued member whose key case-insensitively matches error wins
(later duplicate keys overwrite earlier ones, a non-string value for the key
is a type error that leaves the previous value in place and is swallowed by
the caller). -/
def decodeErrorField (data : Str) : Option Str :=
  match jsonParseWhole data with
  | some (.jobj fields) =>
    fields.foldl
      (fun acc kv =>
        if eqFoldASCII kv.1 (str "error") then
          match kv.2 with
          | .jstr s => some s
          | _ => acc
        else acc)
      none
  | _ => none

/-- http.Header with Set and Get; the client only ever uses keys that are
already in canonical MIME form, so canonicalization is the identity here. -/
def setHeader : List (Str × Str) → Str → Str → List (Str × Str)
  | [], k, v => [(k, v)]
  | (k', v') :: rest, k, v =>
    if k = k' then (k, v) :: rest else (k', v') :: setHeader rest k v

def getHeader : List (Str × Str) → Str → Str
  | [], _ => []
  | (k', v') :: rest, k => if k = k' then v' else getHeader rest k

/-- HTTP method token bytes (net/http validMethod via httpguts). -/
def isTokenByte (b : Byte) : Bool :=
  isAlphaNumByte b || b.val = 33 || b.val = 35 || b.val = 36 || b.val = 37 || b.val = 38 ||
    b.val = 39 || b.val = 42 || b.val = 43 || b.val = 45 || b.val = 46 || b.val = 94 ||
    b.val = 95 || b.val = 96 || b.val = 124 || b.val = 126

def validMethod (m : Str) : Bool := !m.isEmpty && m.all isTokenByte

/-- A response body stream: what is left to read, and whether reading fails
(io.ReadAll either returns the remaining bytes, leaving the stream drained,
or an error). -/
structure Body where
  remaining : Str
  readErr : Bool
deriving DecidableEq

def readAll (b : Body) : Option Str × Body :=
  if b.readErr then (none, b) else (some b.remaining, { b with remaining := [] })

/-- http.Request: the fields this client reads and writes. -/
structure Request where
  method : Str
  url : GoURL
  body : Option Str
  headers : List (Str × Str)
deriving DecidableEq

/-- http.Response: the fields this client reads. -/
structure Response where
  statusCode : Int
  request : Request
  headers : List (Str × Str)
  body : Body
deriving DecidableEq

/-- ErrorResponse holds information about an unsuccessful API request; the
message comes from the field tagged error of the response body. -/
structure ErrorResponse where
  response : Response
  message : Str
deriving DecidableEq

/-- Client for communicating with the libraries.io API. -/
structure Client where
  apiKey : Str
  UserAgent : Str
  BaseURL : GoURL
  Retry : Bool

/-- The parse of the fixed base endpoint https://libraries.io/api/ . -/
def defaultBaseURL : GoURL :=
  { scheme := str "https", opq := [], host := str "libraries.io",
    path := str "/api/", rawQuery := [], fragment := [] }

theorem urlParse_defaultBaseURL : urlParse (str "https://libraries.io/api/") = some defaultBaseURL := by
  decide

/-- NewClient returns a new libraries.io API client (the transport and
http.Client wiring carries no observable state for the modelled claims). -/
def NewClient (apiKey : Str) : Client :=
  { apiKey := apiKey, UserAgent := str "go-librariesio/1",
    BaseURL := defaultBaseURL, Retry := false }

inductive ReqErr where
  | urlErr
  | jsonErr
  | methodErr
deriving DecidableEq

/-- NewRequest: parse the relative URL, resolve it against the base URL,
encode the optional payload (json.Encoder writes the value then a newline),
build the request (http.NewRequest defaults an empty method to GET and
rejects invalid method tokens; its reparse of the resolved URL string is the
identity on URLs produced here), force the api_key query parameter, and set
the headers. -/
def NewRequest (c : Client) (method urlStr : Str) (data : Option JVal) :
    Except ReqErr Request :=
  match urlParse urlStr with
  | none => .error .urlErr
  | some relativeURL =>
    let absoluteURL := resolveReference c.BaseURL relativeURL
    let body? : Option (Option Str) :=
      match data with
      | none => some none
      | some d =>
        match jsonEnc d with
        | none => none
        | some s => some (some (s ++ [(10 : Byte)]))
    match body? with
    | none => .error .jsonErr
    | some body =>
      let method := if method = [] then str "GET" else method
      if validMethod method then
        let req : Request := { method := method, url := absoluteURL, body := body, headers := [] }
        let q := parseQuery req.url.rawQuery
        let q := valuesSet q (str "api_key") c.apiKey
        let req := { req with url := { req.url with rawQuery := encodeValues q } }
        let req := { req with headers := setHeader req.headers (str "Accept") (str "application/json") }
        let req := { req with headers := setHeader req.headers (str "User-Agent") c.UserAgent }
        let req :=
          if data.isSome then
            { req with headers := setHeader req.headers (str "Content-Type") (str "application/json") }
          else req
        .ok req
      else .error .methodErr

/-- CheckResponse checks the API response for errors: status codes outside
2xx produce an ErrorResponse whose message is filled by a best-effort decode
of the body.  Reading the body advances the stream, so the post-state of the
response object is returned alongside (the Go value holds a pointer to it). -/
def CheckResponse (resp : Response) : Option ErrorResponse × Response :=
  if 200 ≤ resp.statusCode ∧ resp.statusCode ≤ 299 then (none, resp)
  else
    match readAll resp.body with
    | (none, b') =>
      let resp' := { resp with body := b' }
      (some { response := resp', message := [] }, resp')
    | (some data, b') =>
      let resp' := { resp with body := b' }
      (some { response := resp', message := (decodeErrorField data).getD [] }, resp')

/-- One byte of strconv Quote as used by %q: quote and backslash escaped,
printable ASCII kept, the short control escapes, and hex escapes for other
bytes (bytes of multibyte runes are modelled bytewise). -/
def quoteByte (b : Byte) : Str :=
  if b.val = 34 then [92, 34]
  else if b.val = 92 then [92, 92]
  else if 32 ≤ b.val ∧ b.val ≤ 126 then [b]
  else if b.val = 7 then [92, 97]
  else if b.val = 8 then [92, 98]
  else if b.val = 12 then [92, 102]
  else if b.val = 10 then [92, 110]
  else if b.val = 13 then [92, 114]
  else if b.val = 9 then [92, 116]
  else if b.val = 11 then [92, 118]
  else [92, 120, hexLower ⟨b.val / 16, by omega⟩, hexLower ⟨b.val % 16, by omega⟩]

def goQuote (s : Str) : Str := (34 : Byte) :: s.flatMap quoteByte ++ [34]

/-- ErrorResponse.Error renders METHOD, the redacted URL, the status code
and the quoted message.  redactAPIKey mutates the URL object inside the
originating request, so the rendering also returns the post-state of the
ErrorResponse value. -/
def errorRender (e : ErrorResponse) : Str × ErrorResponse :=
  let newURL := redactAPIKey e.response.request.url
  let rendered :=
    e.response.request.method ++ (32 : Byte) :: urlString newURL ++
      (58 : Byte) :: (32 : Byte) :: intToStr e.response.statusCode ++
      (32 : Byte) :: goQuote e.message
  (rendered,
    { e with response := { e.response with request := { e.response.request with url := newURL } } })

/-- strconv.Atoi: optional sign then decimal digits (the int64 range check
is not modelled; the modelled claims use small header values). -/
def atoiDigits (neg : Bool) (ds : Str) : Except Unit Int :=
  if ds = [] ∨ ¬ ds.all (fun d => isDigitByte d) then .error ()
  else .ok (if neg then -(Int.ofNat (digitsToNat ds)) else Int.ofNat (digitsToNat ds))

def atoi (s : Str) : Except Unit Int :=
  match s with
  | [] => .error ()
  | b :: r =>
    if b.val = 45 then atoiDigits true r
    else if b.val = 43 then atoiDigits false r
    else atoiDigits false s

/-- The outcome of one network attempt made by http.Client.Do: a transport
failure that is a url.Error carrying an operation and a URL string, some
other transport failure, or a received response. -/
inductive Attempt where
  | transportUrl (op : Str) (urlStr : Str)
  | transportOther
  | received (resp : Response)
deriving DecidableEq

inductive DoErr where
  | errResp (e : ErrorResponse)
  | atoiErr
  | readErr
  | decodeErr
  | urlErr (op : Str) (redactedURL : Str)
  | urlErrRaw (op : Str) (urlStr : Str)
  | transportErr
  | noAttempt
deriving DecidableEq

/-- Client.Do: the caller-supplied context only carries cancellation, which
is outside the embedding; each recursive dispatch consumes the next attempt
outcome of the transport.  Returns the response, the error, and the total
seconds slept in rate-limit waits (time.Sleep of a nonpositive duration
returns at once, hence the clamp to Nat).  hasObj tells whether a result
container was supplied; decoding into it succeeds exactly when the body is
valid JSON (shape mismatches of the concrete container are outside the
model). -/
def Do (c : Client) (req : Request) (hasObj : Bool) :
    List Attempt → Option Response × Option DoErr × Nat
  | [] => (none, some .noAttempt, 0)
  | .transportUrl op urlStr :: _ =>
    match urlParse urlStr with
    | some u => (none, some (.urlErr op (urlString (redactAPIKey u))), 0)
    | none => (none, some (.urlErrRaw op urlStr), 0)
  | .transportOther :: _ => (none, some .transportErr, 0)
  | .received resp :: rest =>
    match CheckResponse resp with
    | (some errR, resp') =>
      if c.Retry ∧ resp.statusCode = 429 ∧ req.method = str "GET" ∧
          getHeader resp.headers (str "X-RateLimit-Reset") ≠ [] then
        match atoi (getHeader resp.headers (str "X-RateLimit-Reset")) with
        | .error _ => (some resp', some .atoiErr, 0)
        | .ok n =>
          let r := Do c req hasObj rest
          (r.1, r.2.1, r.2.2 + (n + 1).toNat)
      else (some resp', some (.errResp errR), 0)
    | (none, resp') =>
      match readAll resp'.body with
      | (none, _) => (none, some .readErr, 0)
      | (some data, b') =>
        let resp'' := { resp' with body := b' }
        if hasObj then
          if (jsonParseWhole data).isSome then (some resp'', none, 0)
          else (none, some .decodeErr, 0)
        else (some resp'', none, 0)

/-! Helper lemmas about redaction and lookups. -/

theorem parseQuery_redact (u : GoURL) :
    parseQuery (redactAPIKey u).rawQuery =
      valuesSet (parseQuery u.rawQuery) (str "api_key") (str "REDACTED") :=
  parseQuery_encodeValues _ (canonical_valuesSet _ _ _ (canonical_parseQuery _))

theorem valuesGet_set_self (m : Values) (k v : Str) : valuesGet (valuesSet m k v) k = v := by
  unfold valuesGet
  rw [valuesLookup_set_self]

theorem redact_scheme (u : GoURL) : (redactAPIKey u).scheme = u.scheme := rfl
theorem redact_host (u : GoURL) : (redactAPIKey u).host = u.host := rfl
theorem redact_path (u : GoURL) : (redactAPIKey u).path = u.path := rfl
theorem redact_fragment (u : GoURL) : (redactAPIKey u).fragment = u.fragment := rfl
theorem redact_opq (u : GoURL) : (redactAPIKey u).opq = u.opq := rfl

theorem redact_idem (u : GoURL) : redactAPIKey (redactAPIKey u) = redactAPIKey u := by
  show ({ redactAPIKey u with
    rawQuery := encodeValues (valuesSet (parseQuery (redactAPIKey u).rawQuery)
      (str "api_key") (str "REDACTED")) } : GoURL) = redactAPIKey u
  rw [parseQuery_redact, valuesSet_set]
  rfl

/-- A concrete URL holding the secret, shared by several examples below. -/
def exURL : GoURL :=
  { scheme := str "https", opq := [], host := str "service",
    path := str "/api/pypi/poyo", rawQuery := str "api_key=SECRET", fragment := [] }

def exRequest : Request :=
  { method := str "GET", url := exURL, body := none, headers := [] }

def exErrResponse : ErrorResponse :=
  { response :=
      { statusCode := 400, request := exRequest, headers := [],
        body := { remaining := [], readErr := false } },
    message := str "Nope Nope Nope" }

/-- C2, counterexample: redactAPIKey writes the redacted query back into the
URL object it was given (the Go function assigns url.RawQuery and returns the
same pointer), so the post-state of the argument differs from its pre-state;
rendering an ErrorResponse consequently changes the originating request URL
stored in it. -/
theorem c2_redact_mutates_counterexample :
    redactAPIKey exURL ≠ exURL ∧
      (errorRender exErrResponse).2.response.request.url ≠
        exErrResponse.response.request.url := by
  constructor
  · decide
  · decide

/-- C2, amended: redactAPIKey has no effect beyond replacing the RawQuery of
the URL object it is given with the redacted encoding: scheme, host, path,
opaque part and fragment are untouched, and the value it returns is exactly
the (mutated) argument object, which is why rendering an ErrorResponse
replaces the originating request URL by its redacted form rather than
leaving it unchanged. -/
theorem c2_redact_effect_amended (u : GoURL) (e : ErrorResponse) :
    (redactAPIKey u).scheme = u.scheme ∧
    (redactAPIKey u).host = u.host ∧
    (redactAPIKey u).path = u.path ∧
    (redactAPIKey u).opq = u.opq ∧
    (redactAPIKey u).fragment = u.fragment ∧
    (redactAPIKey u).rawQuery =
      encodeValues (valuesSet (parseQuery u.rawQuery) (str "api_key") (str "REDACTED")) ∧
    (errorRender e).2.response.request.url = redactAPIKey e.response.request.url ∧
    (errorRender e).2.response.statusCode = e.response.statusCode ∧
    (errorRender e).2.message = e.message :=
  ⟨rfl, rfl, rfl, rfl, rfl, rfl, rfl, rfl, rfl⟩

/-- C3: on a URL whose query has an api_key parameter, redaction sets that
parameter to REDACTED, leaves every other query parameter with exactly its
old values, leaves scheme, host, path, opaque part and fragment unchanged,
and is idempotent. -/
theorem c3_redact_replaces_only_api_key (u : GoURL)
    (h : valuesHas (parseQuery u.rawQuery) (str "api_key") = true) :
    valuesGet (parseQuery (redactAPIKey u).rawQuery) (str "api_key") = str "REDACTED" ∧
    (∀ k, k ≠ str "api_key" →
      valuesLookup (parseQuery (redactAPIKey u).rawQuery) k =
        valuesLookup (parseQuery u.rawQuery) k) ∧
    (redactAPIKey u).scheme = u.scheme ∧
    (redactAPIKey u).host = u.host ∧
    (redactAPIKey u).path = u.path ∧
    (redactAPIKey u).opq = u.opq ∧
    (redactAPIKey u).fragment = u.fragment ∧
    redactAPIKey (redactAPIKey u) = redactAPIKey u := by
  refine ⟨?_, ?_, rfl, rfl, rfl, rfl, rfl, redact_idem u⟩
  · rw [parseQuery_redact, valuesGet_set_self]
  · intro k hk
    rw [parseQuery_redact, valuesLookup_set_other _ _ _ _ hk]

theorem c3_redact_replaces_only_api_key_witness :
    valuesHas (parseQuery exURL.rawQuery) (str "api_key") = true ∧
    valuesGet (parseQuery (redactAPIKey exURL).rawQuery) (str "api_key") = str "REDACTED" ∧
    valuesLookup (parseQuery (redactAPIKey exURL).rawQuery) (str "b") =
      valuesLookup (parseQuery exURL.rawQuery) (str "b") ∧
    redactAPIKey (redactAPIKey exURL) = redactAPIKey exURL := by
  have h := c3_redact_replaces_only_api_key exURL (by decide)
  exact ⟨by decide, h.1, h.2.1 (str "b") (by decide), h.2.2.2.2.2.2.2⟩

/-- C9: on a URL whose query has no api_key parameter at all, redaction
inserts api_key with the single value REDACTED, so the parsed query of the
result is not the parsed query of the input. -/
theorem c9_redact_inserts_api_key (u : GoURL)
    (h : valuesHas (parseQuery u.rawQuery) (str "api_key") = false) :
    valuesLookup (parseQuery (redactAPIKey u).rawQuery) (str "api_key") =
      some [str "REDACTED"] ∧
    parseQuery (redactAPIKey u).rawQuery ≠ parseQuery u.rawQuery := by
  have hnone : valuesLookup (parseQuery u.rawQuery) (str "api_key") = none := by
    unfold valuesHas at h
    exact Option.not_isSome_iff_eq_none.mp (by rw [h]; simp)
  constructor
  · rw [parseQuery_redact, valuesLookup_set_self]
  · intro he
    have : valuesLookup (parseQuery (redactAPIKey u).rawQuery) (str "api_key") =
        valuesLookup (parseQuery u.rawQuery) (str "api_key") := by rw [he]
    rw [parseQuery_redact, valuesLookup_set_self, hnone] at this
    exact Option.noConfusion this

def exURLNoKey : GoURL :=
  { scheme := str "https", opq := [], host := str "service",
    path := str "/api/search", rawQuery := str "q=amelia", fragment := [] }

theorem c9_redact_inserts_api_key_witness :
    valuesHas (parseQuery exURLNoKey.rawQuery) (str "api_key") = false ∧
    valuesLookup (parseQuery (redactAPIKey exURLNoKey).rawQuery) (str "api_key") =
      some [str "REDACTED"] ∧
    parseQuery (redactAPIKey exURLNoKey).rawQuery ≠ parseQuery exURLNoKey.rawQuery := by
  have h := c9_redact_inserts_api_key exURLNoKey (by decide)
  exact ⟨by decide, h.1, h.2⟩

instance {ε α : Type} [DecidableEq ε] [DecidableEq α] : DecidableEq (Except ε α) :=
  fun a b =>
    match a, b with
    | .ok x, .ok y =>
      match decEq x y with
      | isTrue h => isTrue (by rw [h])
      | isFalse h => isFalse (fun hc => h (by injection hc))
    | .error x, .error y =>
      match decEq x y with
      | isTrue h => isTrue (by rw [h])
      | isFalse h => isFalse (fun hc => h (by injection hc))
    | .ok _, .error _ => isFalse (fun hc => Except.noConfusion hc)
    | .error _, .ok _ => isFalse (fun hc => Except.noConfusion hc)

/-- Inversion of NewRequest: whenever it returns a request, the relative URL
parsed, and the request is exactly the resolved URL with the forced api_key
parameter, the serialized body and the standard headers. -/
theorem newRequest_ok_inv (c : Client) (method urlStr : Str) (data : Option JVal)
    (req : Request) (h : NewRequest c method urlStr data = .ok req) :
    ∃ rel, urlParse urlStr = some rel ∧
      req.url = { resolveReference c.BaseURL rel with
        rawQuery := encodeValues (valuesSet
          (parseQuery (resolveReference c.BaseURL rel).rawQuery) (str "api_key") c.apiKey) } ∧
      req.method = (if method = [] then str "GET" else method) ∧
      (data = none → req.body = none ∧
        req.headers = [(str "Accept", str "application/json"),
                       (str "User-Agent", c.UserAgent)]) ∧
      (∀ d, data = some d → ∃ s, jsonEnc d = some s ∧ req.body = some (s ++ [(10 : Byte)]) ∧
        req.headers = [(str "Accept", str "application/json"),
                       (str "User-Agent", c.UserAgent),
                       (str "Content-Type", str "application/json")]) := by
  unfold NewRequest at h
  cases hu : urlParse urlStr with
  | none => rw [hu] at h; simp at h
  | some rel =>
    rw [hu] at h
    dsimp only at h
    refine ⟨rel, rfl, ?_⟩
    cases data with
    | none =>
      dsimp only at h
      by_cases hv : validMethod (if method = [] then str "GET" else method) = true
      · rw [if_pos hv] at h
        injection h with h
        subst h
        refine ⟨rfl, rfl, fun _ => ⟨rfl, rfl⟩, fun d hd => Option.noConfusion hd⟩
      · rw [if_neg hv] at h
        simp at h
    | some d =>
      dsimp only at h
      cases hj : jsonEnc d with
      | none =>
        rw [hj] at h
        dsimp only at h
        simp at h
      | some s =>
        rw [hj] at h
        dsimp only at h
        by_cases hv : validMethod (if method = [] then str "GET" else method) = true
        · rw [if_pos hv] at h
          injection h with h
          subst h
          refine ⟨rfl, rfl, fun hn => Option.noConfusion hn, fun d' hd => ?_⟩
          injection hd with hd
          subst hd
          exact ⟨s, hj, rfl, rfl⟩
        · rw [if_neg hv] at h
          simp at h

/-- C4: a request built from a parseable relative path carries the absolute
URL obtained by resolving the path against the base URL: every component
except the query is that of the resolution, and the query is the resolved
query with api_key forced to the client credential — the credential is the
single value of api_key, overriding any api_key the path supplied, and every
other parameter keeps exactly the values of the resolution. -/
theorem c4_newRequest_resolves_and_overrides (c : Client) (method urlStr : Str)
    (data : Option JVal) (req : Request) (rel : GoURL)
    (hrel : urlParse urlStr = some rel)
    (h : NewRequest c method urlStr data = .ok req) :
    req.url.scheme = (resolveReference c.BaseURL rel).scheme ∧
    req.url.host = (resolveReference c.BaseURL rel).host ∧
    req.url.path = (resolveReference c.BaseURL rel).path ∧
    req.url.opq = (resolveReference c.BaseURL rel).opq ∧
    req.url.fragment = (resolveReference c.BaseURL rel).fragment ∧
    parseQuery req.url.rawQuery =
      valuesSet (parseQuery (resolveReference c.BaseURL rel).rawQuery)
        (str "api_key") c.apiKey ∧
    valuesGet (parseQuery req.url.rawQuery) (str "api_key") = c.apiKey ∧
    valuesLookup (parseQuery req.url.rawQuery) (str "api_key") = some [c.apiKey] ∧
    (∀ k, k ≠ str "api_key" →
      valuesLookup (parseQuery req.url.rawQuery) k =
        valuesLookup (parseQuery (resolveReference c.BaseURL rel).rawQuery) k) := by
  obtain ⟨rel2, hu, hurl, _⟩ := newRequest_ok_inv c method urlStr data req h
  rw [hrel] at hu
  injection hu with hu
  subst hu
  have hq : parseQuery req.url.rawQuery =
      valuesSet (parseQuery (resolveReference c.BaseURL rel).rawQuery)
        (str "api_key") c.apiKey := by
    rw [hurl]
    exact parseQuery_encodeValues _ (canonical_valuesSet _ _ _ (canonical_parseQuery _))
  refine ⟨by rw [hurl], by rw [hurl], by rw [hurl], by rw [hurl], by rw [hurl], hq, ?_, ?_, ?_⟩
  · rw [hq, valuesGet_set_self]
  · rw [hq, valuesLookup_set_self]
  · intro k hk
    rw [hq, valuesLookup_set_other _ _ _ _ hk]

def exC4Rel : GoURL :=
  { scheme := [], opq := [], host := [], path := str "pypi/poyo",
    rawQuery := str "api_key=OTHER&b=2", fragment := [] }

def exC4Req : Request :=
  { method := str "GET",
    url := { scheme := str "https", opq := [], host := str "libraries.io",
             path := str "/api/pypi/poyo", rawQuery := str "api_key=1234&b=2", fragment := [] },
    body := none,
    headers := [(str "Accept", str "application/json"),
                (str "User-Agent", str "go-librariesio/1")] }

theorem c4_newRequest_resolves_and_overrides_witness :
    urlParse (str "pypi/poyo?api_key=OTHER&b=2") = some exC4Rel ∧
    NewRequest (NewClient (str "1234")) (str "GET") (str "pypi/poyo?api_key=OTHER&b=2") none =
      .ok exC4Req ∧
    valuesGet (parseQuery exC4Req.url.rawQuery) (str "api_key") = str "1234" ∧
    valuesLookup (parseQuery exC4Req.url.rawQuery) (str "api_key") = some [str "1234"] ∧
    valuesLookup (parseQuery exC4Req.url.rawQuery) (str "b") =
      valuesLookup
        (parseQuery (resolveReference (NewClient (str "1234")).BaseURL exC4Rel).rawQuery)
        (str "b") := by
  have h := c4_newRequest_resolves_and_overrides (NewClient (str "1234")) (str "GET")
    (str "pypi/poyo?api_key=OTHER&b=2") none exC4Req exC4Rel (by decide) (by decide)
  exact ⟨by decide, by decide, h.2.2.2.2.2.2.1, h.2.2.2.2.2.2.2.1,
    h.2.2.2.2.2.2.2.2 (str "b") (by decide)⟩

/-- C5: a request built with a null payload has no body and no Content-Type
header; one built with a JSON-representable payload carries the json
encoding of the payload (plus the newline the json Encoder writes) as its
body and Content-Type application/json; Accept and User-Agent are set
either way. -/
theorem c5_newRequest_body_headers (c : Client) (method urlStr : Str)
    (data : Option JVal) (req : Request)
    (h : NewRequest c method urlStr data = .ok req) :
    (data = none → req.body = none ∧ getHeader req.headers (str "Content-Type") = []) ∧
    (∀ d, data = some d → ∃ s, jsonEnc d = some s ∧
      req.body = some (s ++ [(10 : Byte)]) ∧
      getHeader req.headers (str "Content-Type") = str "application/json") ∧
    getHeader req.headers (str "Accept") = str "application/json" ∧
    getHeader req.headers (str "User-Agent") = c.UserAgent := by
  obtain ⟨rel, hu, hurl, hm, hnone, hsome⟩ := newRequest_ok_inv c method urlStr data req h
  refine ⟨?_, ?_, ?_, ?_⟩
  · intro hd
    obtain ⟨hb, hh⟩ := hnone hd
    rw [hh] at *
    exact ⟨hb, rfl⟩
  · intro d hd
    obtain ⟨s, hj, hb, hh⟩ := hsome d hd
    rw [hh]
    exact ⟨s, hj, hb, rfl⟩
  · cases data with
    | none =>
      obtain ⟨_, hh⟩ := hnone rfl
      rw [hh]
      rfl
    | some d =>
      obtain ⟨s, _, _, hh⟩ := hsome d rfl
      rw [hh]
      rfl
  · cases data with
    | none =>
      obtain ⟨_, hh⟩ := hnone rfl
      rw [hh]
      rfl
    | some d =>
      obtain ⟨s, _, _, hh⟩ := hsome d rfl
      rw [hh]
      rfl

def exC5Req : Request :=
  { method := str "GET",
    url := { scheme := str "https", opq := [], host := str "libraries.io",
             path := str "/api/pypi/poyo", rawQuery := str "api_key=1234", fragment := [] },
    body := some (str "\"hello world\"\n"),
    headers := [(str "Accept", str "application/json"),
                (str "User-Agent", str "go-librariesio/1"),
                (str "Content-Type", str "application/json")] }

def exC5ReqNone : Request :=
  { method := str "GET",
    url := { scheme := str "https", opq := [], host := str "libraries.io",
             path := str "/api/pypi/poyo", rawQuery := str "api_key=1234", fragment := [] },
    body := none,
    headers := [(str "Accept", str "application/json"),
                (str "User-Agent", str "go-librariesio/1")] }

theorem c5_newRequest_body_headers_witness :
    NewRequest (NewClient (str "1234")) (str "GET") (str "pypi/poyo")
        (some (.jstr (str "hello world"))) = .ok exC5Req ∧
    NewRequest (NewClient (str "1234")) (str "GET") (str "pypi/poyo") none = .ok exC5ReqNone ∧
    exC5ReqNone.body = none ∧
    getHeader exC5ReqNone.headers (str "Content-Type") = [] ∧
    exC5Req.body = some (str "\"hello world\"" ++ [(10 : Byte)]) ∧
    getHeader exC5Req.headers (str "Content-Type") = str "application/json" ∧
    getHeader exC5Req.headers (str "Accept") = str "application/json" ∧
    getHeader exC5Req.headers (str "User-Agent") = str "go-librariesio/1" := by
  have h5 := c5_newRequest_body_headers (NewClient (str "1234")) (str "GET")
    (str "pypi/poyo") (some (.jstr (str "hello world"))) exC5Req (by decide)
  have h5n := c5_newRequest_body_headers (NewClient (str "1234")) (str "GET")
    (str "pypi/poyo") none exC5ReqNone (by decide)
  refine ⟨by decide, by decide, (h5n.1 rfl).1, (h5n.1 rfl).2, by decide,
    ?_, h5.2.2.1, h5.2.2.2⟩
  obtain ⟨s, _, _, hct⟩ := h5.2.1 _ rfl
  exact hct

theorem checkResponse_2xx (resp : Response)
    (h : 200 ≤ resp.statusCode ∧ resp.statusCode ≤ 299) :
    CheckResponse resp = (none, resp) := by
  unfold CheckResponse
  rw [if_pos h]

theorem checkResponse_not2xx (resp : Response)
    (h : ¬(200 ≤ resp.statusCode ∧ resp.statusCode ≤ 299)) :
    CheckResponse resp =
      (some { response := { resp with body := (readAll resp.body).2 },
              message := ((readAll resp.body).1.bind decodeErrorField).getD [] },
        { resp with body := (readAll resp.body).2 }) := by
  unfold CheckResponse
  rw [if_neg h]
  rcases hr : readAll resp.body with ⟨d, b2⟩
  cases d with
  | none => rfl
  | some data => rfl

/-- C6: CheckResponse returns no error exactly on 2xx (leaving the response
untouched); on any other status it returns an ErrorResponse carrying that
status whose message is the error field of the JSON-decoded body when the
body reads and decodes, and is empty otherwise — a read or decode failure is
swallowed, the error is returned regardless. -/
theorem c6_checkResponse_classification (resp : Response) :
    ((CheckResponse resp).1 = none ↔ (200 ≤ resp.statusCode ∧ resp.statusCode ≤ 299)) ∧
    (200 ≤ resp.statusCode ∧ resp.statusCode ≤ 299 → CheckResponse resp = (none, resp)) ∧
    (¬(200 ≤ resp.statusCode ∧ resp.statusCode ≤ 299) →
      ∃ e, (CheckResponse resp).1 = some e ∧
        e.response.statusCode = resp.statusCode ∧
        e.message = ((readAll resp.body).1.bind decodeErrorField).getD [] ∧
        ((readAll resp.body).1.bind decodeErrorField = none → e.message = [])) := by
  by_cases h : 200 ≤ resp.statusCode ∧ resp.statusCode ≤ 299
  · rw [checkResponse_2xx resp h]
    exact ⟨by simp [h], fun _ => rfl, fun hn => absurd h hn⟩
  · rw [checkResponse_not2xx resp h]
    refine ⟨by simp [h], fun h2 => absurd h2 h, fun _ => ⟨_, rfl, rfl, rfl, fun hd => ?_⟩⟩
    rw [hd]
    rfl

def exBody400 : Body := { remaining := str "\x7b\"error\":\"Nope Nope Nope\"\x7d", readErr := false }

def exResp400 : Response :=
  { statusCode := 400, request := exRequest, headers := [], body := exBody400 }

def exResp400Drained : Response :=
  { exResp400 with body := { remaining := [], readErr := false } }

def exResp200 : Response :=
  { statusCode := 200, request := exRequest, headers := [], body := exBody400 }

def exResp400Bad : Response :=
  { statusCode := 400, request := exRequest, headers := [],
    body := { remaining := str "not json", readErr := false } }

theorem c6_checkResponse_classification_witness :
    (CheckResponse exResp200).1 = none ∧
    CheckResponse exResp400 =
      (some { response := exResp400Drained, message := str "Nope Nope Nope" },
        exResp400Drained) ∧
    (CheckResponse exResp400Bad).1 =
      some { response := { exResp400Bad with body := { remaining := [], readErr := false } },
             message := [] } := by
  refine ⟨(c6_checkResponse_classification exResp200).1.mpr (by decide), by decide, by decide⟩

/-- C1, counterexample: the body stream is consumed by the first
classification, so classifying the same (mutated) response object again
yields a different error value — the message is lost the second time. -/
theorem c1_checkResponse_twice_counterexample :
    (CheckResponse exResp400).1 ≠ (CheckResponse (CheckResponse exResp400).2).1 := by
  decide

/-- C1, amended: classifying twice yields equal (nil) errors for 2xx
responses; for any other status both calls return an ErrorResponse with the
same status, but the second call always carries an empty message because the
first call consumed the body stream, so the two error values are equal
exactly when the first message was already empty. -/
theorem c1_checkResponse_twice_amended (resp : Response) :
    (200 ≤ resp.statusCode ∧ resp.statusCode ≤ 299 →
      (CheckResponse resp).1 = none ∧ (CheckResponse (CheckResponse resp).2).1 = none) ∧
    (¬(200 ≤ resp.statusCode ∧ resp.statusCode ≤ 299) →
      ∃ e1 r1, CheckResponse resp = (some e1, r1) ∧ e1.response = r1 ∧
        CheckResponse r1 = (some { response := r1, message := [] }, r1) ∧
        ((CheckResponse r1).1 = (CheckResponse resp).1 ↔ e1.message = [])) := by
  by_cases h : 200 ≤ resp.statusCode ∧ resp.statusCode ≤ 299
  · refine ⟨fun _ => ?_, fun hn => absurd h hn⟩
    rw [checkResponse_2xx resp h]
    rw [checkResponse_2xx resp h]
    exact ⟨rfl, rfl⟩
  · refine ⟨fun h2 => absurd h2 h, fun _ => ?_⟩
    have hcr := checkResponse_not2xx resp h
    have hsecond : CheckResponse { resp with body := (readAll resp.body).2 } =
        (some { response := { resp with body := (readAll resp.body).2 }, message := [] },
          { resp with body := (readAll resp.body).2 }) := by
      cases hb : resp.body.readErr with
      | true =>
        have hra : readAll resp.body = (none, resp.body) := by
          unfold readAll
          rw [if_pos hb]
        rw [hra]
        have hcr2 := checkResponse_not2xx { resp with body := resp.body } h
        rw [hra] at hcr2
        exact hcr2
      | false =>
        have hra : readAll resp.body = (some resp.body.remaining,
            { remaining := [], readErr := resp.body.readErr }) := by
          unfold readAll
          rw [if_neg (by rw [hb]; simp)]
        rw [hra]
        have hcr2 := checkResponse_not2xx
          { resp with body := { remaining := [], readErr := resp.body.readErr } } h
        have hra2 : readAll { remaining := ([] : Str), readErr := resp.body.readErr } =
            (some [], { remaining := [], readErr := resp.body.readErr }) := by
          unfold readAll
          rw [if_neg (by rw [hb]; simp)]
        rw [hra2] at hcr2
        rw [hcr2]
        have : ((some ([] : Str)).bind decodeErrorField).getD [] = ([] : Str) := by decide
        rw [this]
    refine ⟨_, _, hcr, rfl, hsecond, ?_⟩
    rw [hcr, hsecond]
    simp only [Option.some.injEq]
    constructor
    · intro he
      have := congrArg ErrorResponse.message he
      exact this.symm
    · intro hm
      rw [ErrorResponse.mk.injEq]
      exact ⟨rfl, hm.symm⟩

theorem c1_checkResponse_twice_amended_witness :
    (CheckResponse exResp200).1 = none ∧
    (CheckResponse (CheckResponse exResp200).2).1 = none ∧
    CheckResponse exResp400 =
      (some { response := exResp400Drained, message := str "Nope Nope Nope" },
        exResp400Drained) ∧
    CheckResponse exResp400Drained =
      (some { response := exResp400Drained, message := [] }, exResp400Drained) ∧
    ¬((CheckResponse exResp400Drained).1 = (CheckResponse exResp400).1) := by
  have h200 := (c1_checkResponse_twice_amended exResp200).1 (by decide)
  have h400 := (c1_checkResponse_twice_amended exResp400).2 (by decide)
  exact ⟨h200.1, h200.2, by decide, by decide, by decide⟩

/-- C7: the rendered form of an ErrorResponse is exactly METHOD, space, the
redacted URL, colon space, the decimal status code, space, the quoted
message; on the concrete 400 example the rendering is the exact contract
string with the secret replaced by REDACTED. -/
theorem c7_errorResponse_render_format :
    (∀ e : ErrorResponse, (errorRender e).1 =
      e.response.request.method ++ (32 : Byte) ::
        urlString (redactAPIKey e.response.request.url) ++
        (58 : Byte) :: (32 : Byte) :: intToStr e.response.statusCode ++
        (32 : Byte) :: goQuote e.message) ∧
    (errorRender exErrResponse).1 =
      str "GET https://service/api/pypi/poyo?api_key=REDACTED: 400 \"Nope Nope Nope\"" := by
  exact ⟨fun e => rfl, by decide⟩

/-! Claims about the dispatch engine. -/

/-- C8: on a received response, a retry (another dispatch of the same
request, after sleeping resetSeconds + 1) happens exactly in the eligible
case: retry mode on, status 429, method GET, nonempty reset header that
parses as an integer.  An unparseable reset header returns the parse error
at once with no wait; any other ineligible failure (such as a 429 on POST)
returns the classified error at once with no wait. -/
theorem c8_do_retry_policy (c : Client) (req : Request) (hasObj : Bool)
    (resp : Response) (rest : List Attempt) :
    (∀ n : Int,
      (c.Retry ∧ resp.statusCode = 429 ∧ req.method = str "GET" ∧
        getHeader resp.headers (str "X-RateLimit-Reset") ≠ []) →
      atoi (getHeader resp.headers (str "X-RateLimit-Reset")) = .ok n →
      Do c req hasObj (.received resp :: rest) =
        ((Do c req hasObj rest).1, (Do c req hasObj rest).2.1,
          (Do c req hasObj rest).2.2 + (n + 1).toNat)) ∧
    ((c.Retry ∧ resp.statusCode = 429 ∧ req.method = str "GET" ∧
        getHeader resp.headers (str "X-RateLimit-Reset") ≠ []) →
      atoi (getHeader resp.headers (str "X-RateLimit-Reset")) = .error () →
      Do c req hasObj (.received resp :: rest) =
        (some (CheckResponse resp).2, some .atoiErr, 0)) ∧
    (¬(200 ≤ resp.statusCode ∧ resp.statusCode ≤ 299) →
      ¬(c.Retry ∧ resp.statusCode = 429 ∧ req.method = str "GET" ∧
        getHeader resp.headers (str "X-RateLimit-Reset") ≠ []) →
      ∃ e, (CheckResponse resp).1 = some e ∧
        Do c req hasObj (.received resp :: rest) =
          (some (CheckResponse resp).2, some (.errResp e), 0)) := by
  refine ⟨?_, ?_, ?_⟩
  · intro n helig hatoi
    have h2 : ¬(200 ≤ resp.statusCode ∧ resp.statusCode ≤ 299) := by
      rw [helig.2.1]
      omega
    have hcr := checkResponse_not2xx resp h2
    show (match CheckResponse resp with
      | (some errR, resp') =>
        if c.Retry ∧ resp.statusCode = 429 ∧ req.method = str "GET" ∧
            getHeader resp.headers (str "X-RateLimit-Reset") ≠ [] then
          match atoi (getHeader resp.headers (str "X-RateLimit-Reset")) with
          | .error _ => (some resp', some DoErr.atoiErr, 0)
          | .ok n =>
            let r := Do c req hasObj rest
            (r.1, r.2.1, r.2.2 + (n + 1).toNat)
        else (some resp', some (DoErr.errResp errR), 0)
      | (none, resp') =>
        match readAll resp'.body with
        | (none, _) => (none, some DoErr.readErr, 0)
        | (some data, b') =>
          let resp'' := { resp' with body := b' }
          if hasObj then
            if (jsonParseWhole data).isSome then (some resp'', none, 0)
            else (none, some DoErr.decodeErr, 0)
          else (some resp'', none, 0)) = _
    rw [hcr]
    dsimp only
    rw [if_pos helig, hatoi]
  · intro helig hatoi
    have h2 : ¬(200 ≤ resp.statusCode ∧ resp.statusCode ≤ 299) := by
      rw [helig.2.1]
      omega
    have hcr := checkResponse_not2xx resp h2
    show (match CheckResponse resp with
      | (some errR, resp') =>
        if c.Retry ∧ resp.statusCode = 429 ∧ req.method = str "GET" ∧
            getHeader resp.headers (str "X-RateLimit-Reset") ≠ [] then
          match atoi (getHeader resp.headers (str "X-RateLimit-Reset")) with
          | .error _ => (some resp', some DoErr.atoiErr, 0)
          | .ok n =>
            let r := Do c req hasObj rest
            (r.1, r.2.1, r.2.2 + (n + 1).toNat)
        else (some resp', some (DoErr.errResp errR), 0)
      | (none, resp') =>
        match readAll resp'.body with
        | (none, _) => (none, some DoErr.readErr, 0)
        | (some data, b') =>
          let resp'' := { resp' with body := b' }
          if hasObj then
            if (jsonParseWhole data).isSome then (some resp'', none, 0)
            else (none, some DoErr.decodeErr, 0)
          else (some resp'', none, 0)) = _
    rw [hcr]
    dsimp only
    rw [if_pos helig, hatoi]
  · intro h2 helig
    have hcr := checkResponse_not2xx resp h2
    refine ⟨_, by rw [hcr], ?_⟩
    show (match CheckResponse resp with
      | (some errR, resp') =>
        if c.Retry ∧ resp.statusCode = 429 ∧ req.method = str "GET" ∧
            getHeader resp.headers (str "X-RateLimit-Reset") ≠ [] then
          match atoi (getHeader resp.headers (str "X-RateLimit-Reset")) with
          | .error _ => (some resp', some DoErr.atoiErr, 0)
          | .ok n =>
            let r := Do c req hasObj rest
            (r.1, r.2.1, r.2.2 + (n + 1).toNat)
        else (some resp', some (DoErr.errResp errR), 0)
      | (none, resp') =>
        match readAll resp'.body with
        | (none, _) => (none, some DoErr.readErr, 0)
        | (some data, b') =>
          let resp'' := { resp' with body := b' }
          if hasObj then
            if (jsonParseWhole data).isSome then (some resp'', none, 0)
            else (none, some DoErr.decodeErr, 0)
          else (some resp'', none, 0)) = _
    rw [hcr]
    dsimp only
    rw [if_neg helig]

def exClientRetry : Client := { NewClient (str "1234") with Retry := true }

def exReq429 : Request := { method := str "GET", url := exURL, body := none, headers := [] }

def exReqPost : Request := { exReq429 with method := str "POST" }

def exResp429 : Response :=
  { statusCode := 429, request := exReq429,
    headers := [(str "X-RateLimit-Reset", str "2")],
    body := { remaining := [], readErr := false } }

def exResp429Bad : Response :=
  { exResp429 with headers := [(str "X-RateLimit-Reset", str "soon")] }

def exRespOK : Response :=
  { statusCode := 200, request := exReq429, headers := [],
    body := { remaining := str "{}", readErr := false } }

theorem c8_do_retry_policy_witness :
    Do exClientRetry exReq429 false [.received exResp429, .received exRespOK] =
      (some { exRespOK with body := { remaining := [], readErr := false } }, none, 3) ∧
    3 ≤ (Do exClientRetry exReq429 false [.received exResp429, .received exRespOK]).2.2 ∧
    Do exClientRetry exReqPost false [.received exResp429] =
      (some exResp429,
        some (.errResp { response := exResp429, message := [] }), 0) ∧
    Do exClientRetry exReq429 false [.received exResp429Bad] =
      (some exResp429Bad, some .atoiErr, 0) := by
  have h1 := (c8_do_retry_policy exClientRetry exReq429 false exResp429
    [.received exRespOK]).1 2 ⟨rfl, rfl, rfl, by decide⟩ (by decide)
  have h2 := (c8_do_retry_policy exClientRetry exReqPost false exResp429 []).2.2
    (by decide) (by decide)
  have h3 := (c8_do_retry_policy exClientRetry exReq429 false exResp429Bad []).2.1
    ⟨rfl, rfl, rfl, by decide⟩ (by decide)
  refine ⟨?_, ?_, ?_, ?_⟩
  · rw [h1]
    decide
  · rw [h1]
    decide
  · obtain ⟨e, he, hdo⟩ := h2
    have hee : some e = some ({ response := exResp429, message := [] } : ErrorResponse) := by
      rw [← he]
      decide
    injection hee with hee
    subst hee
    rw [hdo]
    decide
  · rw [h3]
    decide

/-- C10: on a successful-status response, a body read failure — or, when a
result container is supplied, a body that does not decode as JSON — makes
Do return a nil response together with the error, while the non-2xx
non-retry path returns the received (drained) response together with the
classified error. -/
theorem c10_do_success_errors_nil_response (c : Client) (req : Request) (hasObj : Bool)
    (resp : Response) (rest : List Attempt) :
    ((200 ≤ resp.statusCode ∧ resp.statusCode ≤ 299) →
      (resp.body.readErr = true →
        Do c req hasObj (.received resp :: rest) = (none, some .readErr, 0)) ∧
      (resp.body.readErr = false → jsonParseWhole resp.body.remaining = none →
        Do c req true (.received resp :: rest) = (none, some .decodeErr, 0))) ∧
    (¬(200 ≤ resp.statusCode ∧ resp.statusCode ≤ 299) →
      ¬(c.Retry ∧ resp.statusCode = 429 ∧ req.method = str "GET" ∧
        getHeader resp.headers (str "X-RateLimit-Reset") ≠ []) →
      ∃ e, (CheckResponse resp).1 = some e ∧
        Do c req hasObj (.received resp :: rest) =
          (some (CheckResponse resp).2, some (.errResp e), 0)) := by
  constructor
  · intro h2
    have hcr := checkResponse_2xx resp h2
    constructor
    · intro hre
      show (match CheckResponse resp with
        | (some errR, resp') =>
          if c.Retry ∧ resp.statusCode = 429 ∧ req.method = str "GET" ∧
              getHeader resp.headers (str "X-RateLimit-Reset") ≠ [] then
            match atoi (getHeader resp.headers (str "X-RateLimit-Reset")) with
            | .error _ => (some resp', some DoErr.atoiErr, 0)
            | .ok n =>
              let r := Do c req hasObj rest
              (r.1, r.2.1, r.2.2 + (n + 1).toNat)
          else (some resp', some (DoErr.errResp errR), 0)
        | (none, resp') =>
          match readAll resp'.body with
          | (none, _) => (none, some DoErr.readErr, 0)
          | (some data, b') =>
            let resp'' := { resp' with body := b' }
            if hasObj then
              if (jsonParseWhole data).isSome then (some resp'', none, 0)
              else (none, some DoErr.decodeErr, 0)
            else (some resp'', none, 0)) = _
      rw [hcr]
      dsimp only
      have hra : readAll resp.body = (none, resp.body) := by
        unfold readAll
        rw [if_pos hre]
      rw [hra]
    · intro hre hjp
      show (match CheckResponse resp with
        | (some errR, resp') =>
          if c.Retry ∧ resp.statusCode = 429 ∧ req.method = str "GET" ∧
              getHeader resp.headers (str "X-RateLimit-Reset") ≠ [] then
            match atoi (getHeader resp.headers (str "X-RateLimit-Reset")) with
            | .error _ => (some resp', some DoErr.atoiErr, 0)
            | .ok n =>
              let r := Do c req true rest
              (r.1, r.2.1, r.2.2 + (n + 1).toNat)
          else (some resp', some (DoErr.errResp errR), 0)
        | (none, resp') =>
          match readAll resp'.body with
          | (none, _) => (none, some DoErr.readErr, 0)
          | (some data, b') =>
            let resp'' := { resp' with body := b' }
            if true = true then
              if (jsonParseWhole data).isSome then (some resp'', none, 0)
              else (none, some DoErr.decodeErr, 0)
            else (some resp'', none, 0)) = _
      rw [hcr]
      dsimp only
      have hra : readAll resp.body = (some resp.body.remaining,
          { remaining := [], readErr := resp.body.readErr }) := by
        unfold readAll
        rw [if_neg (by rw [hre]; simp)]
      rw [hra]
      dsimp only
      rw [hjp]
      rfl
  · intro h2 helig
    have hcr := checkResponse_not2xx resp h2
    refine ⟨_, by rw [hcr], ?_⟩
    show (match CheckResponse resp with
      | (some errR, resp') =>
        if c.Retry ∧ resp.statusCode = 429 ∧ req.method = str "GET" ∧
            getHeader resp.headers (str "X-RateLimit-Reset") ≠ [] then
          match atoi (getHeader resp.headers (str "X-RateLimit-Reset")) with
          | .error _ => (some resp', some DoErr.atoiErr, 0)
          | .ok n =>
            let r := Do c req hasObj rest
            (r.1, r.2.1, r.2.2 + (n + 1).toNat)
        else (some resp', some (DoErr.errResp errR), 0)
      | (none, resp') =>
        match readAll resp'.body with
        | (none, _) => (none, some DoErr.readErr, 0)
        | (some data, b') =>
          let resp'' := { resp' with body := b' }
          if hasObj then
            if (jsonParseWhole data).isSome then (some resp'', none, 0)
            else (none, some DoErr.decodeErr, 0)
          else (some resp'', none, 0)) = _
    rw [hcr]
    dsimp only
    rw [if_neg helig]

def exRespBadBody : Response :=
  { statusCode := 200, request := exReq429, headers := [],
    body := { remaining := str "\x7b", readErr := false } }

def exRespReadErr : Response :=
  { statusCode := 200, request := exReq429, headers := [],
    body := { remaining := [], readErr := true } }

theorem c10_do_success_errors_nil_response_witness :
    Do exClientRetry exReq429 true [.received exRespBadBody] =
      (none, some .decodeErr, 0) ∧
    Do exClientRetry exReq429 false [.received exRespReadErr] =
      (none, some .readErr, 0) ∧
    Do exClientRetry exReqPost false [.received exResp429] =
      (some exResp429, some (.errResp { response := exResp429, message := [] }), 0) := by
  have h1 := ((c10_do_success_errors_nil_response exClientRetry exReq429 true
    exRespBadBody []).1 (by decide)).2 (by decide) rfl
  have h2 := ((c10_do_success_errors_nil_response exClientRetry exReq429 false
    exRespReadErr []).1 (by decide)).1 (by decide)
  have h3 := (c10_do_success_errors_nil_response exClientRetry exReqPost false
    exResp429 []).2 (by decide) (by decide)
  refine ⟨h1, h2, ?_⟩
  obtain ⟨e, he, hdo⟩ := h3
  have hee : some e = some ({ response := exResp429, message := [] } : ErrorResponse) := by
    rw [← he]
    decide
  injection hee with hee
  subst hee
  rw [hdo]
  decide

end LibrariesIO
